import Mathlib

/-!
Verification of the based-engine-2 frame lifecycle, level object management,
engine level loading, and camera coordinate system, as shallowly embedded
Lean definitions translated from the TypeScript sources
(`src/engine/Level.ts`, `src/engine/Engine.ts`, `src/engine/Camera.ts`,
`src/engine/math.ts`, `src/engine/GameObject.ts`).

Numbers are modelled as rationals (`ℚ`); JavaScript `Map`s are modelled as
insertion-ordered association lists with unique keys, and JavaScript `Set`s
as insertion-ordered duplicate-free lists, matching the iteration-order
semantics that the source relies on.
-/

/-- A game object as far as the level lifecycle is concerned: the fields of
`GameObject` (GameObject.ts) read by `BasedLevel._update` / `_draw`:
`id`, `active`, `visible`, `depth`, plus the position fields `x`, `y`
(which the draw ordering must be shown not to consult). -/
structure GameObj where
  id : String
  active : Bool
  visible : Bool
  depth : ℚ
  x : ℚ
  y : ℚ
deriving DecidableEq, Repr

/-- The `BasedLevel` object-management state (Level.ts lines 12–14):
`_objects` (a `Map`, insertion ordered), `_objectsToAdd` (an array),
`_objectsToRemove` (a `Set`, insertion ordered and duplicate free). -/
structure LevelState where
  objects : List GameObj
  toAdd : List GameObj
  toRemove : List String
deriving DecidableEq, Repr

/-- Observable hook invocations made by the level lifecycle code, in the
order the source performs them. `create` is `obj._init()` (which calls the
object's `create` hook), `destroyObj` is `obj.destroy()`, `updateObj` is
`obj.update(delta)`, `drawObj` is `obj.draw(draw)`; `levelUpdate`,
`levelDraw` and `levelDestroy` are the level's own hooks. -/
inductive Ev where
  | create (id : String)
  | destroyObj (id : String)
  | levelUpdate (delta : ℚ)
  | updateObj (id : String) (delta : ℚ)
  | levelDraw
  | drawObj (id : String)
  | levelDestroy
deriving DecidableEq, Repr

/-- `Map.set` for the insertion-ordered map model: if the key is present the
value is replaced in place (keeping its position), otherwise the entry is
appended (JS `Map` semantics used by `this._objects.set(obj.id, obj)`). -/
def mapSet (m : List GameObj) (o : GameObj) : List GameObj :=
  if m.any (fun p => p.id == o.id) then
    m.map (fun p => if p.id == o.id then o else p)
  else
    m ++ [o]

/-- `Map.get` for the map model (`this._objects.get(id)`). -/
def mapGet (m : List GameObj) (id : String) : Option GameObj :=
  m.find? (fun p => p.id == id)

/-- `Map.delete` for the map model (`this._objects.delete(id)`); on maps
with unique keys this removes exactly the entry for `id`. -/
def mapDelete (m : List GameObj) (id : String) : List GameObj :=
  m.filter (fun p => p.id != id)

/-- `Set.add` for the set model: appends unless already present
(`this._objectsToRemove.add(id)`). -/
def setAdd (s : List String) (id : String) : List String :=
  if s.contains id then s else s ++ [id]

/-- `BasedLevel.addObject` (Level.ts lines 72–74): only pushes onto the
pending-add list. -/
def addObject (s : LevelState) (o : GameObj) : LevelState :=
  { s with toAdd := s.toAdd ++ [o] }

/-- `BasedLevel.removeObject` (Level.ts lines 79–81): only records the id in
the pending-remove set. -/
def removeObject (s : LevelState) (id : String) : LevelState :=
  { s with toRemove := setAdd s.toRemove id }

/-- A mutation request issued by game code through the level's public API. -/
inductive Req where
  | add (o : GameObj)
  | remove (id : String)
deriving DecidableEq, Repr

/-- Apply one public mutation request. -/
def applyReq (s : LevelState) (r : Req) : LevelState :=
  match r with
  | .add o => addObject s o
  | .remove id => removeObject s id

/-- Apply a sequence of public mutation requests in order. -/
def applyReqs (s : LevelState) (rs : List Req) : LevelState :=
  rs.foldl applyReq s

/-- The objects of the add-requests of a request sequence, in order. -/
def addsOf (rs : List Req) : List GameObj :=
  rs.filterMap (fun r => match r with | .add o => some o | .remove _ => none)

/-- The ids of the remove-requests of a request sequence, in order. -/
def removesOf (rs : List Req) : List String :=
  rs.filterMap (fun r => match r with | .add _ => none | .remove id => some id)

/-- Step 1 of `BasedLevel._update` (Level.ts lines 140–144): drain the
pending-add list in insertion order; each object is inserted into the live
map and then its creation hook (`obj._init()`) fires. Returns the new map
and the emitted events. -/
def drainAdds (m : List GameObj) : List GameObj → List GameObj × List Ev
  | [] => (m, [])
  | o :: rest =>
    let m2 := mapSet m o
    let (m3, evs) := drainAdds m2 rest
    (m3, Ev.create o.id :: evs)

/-- Step 2 of `BasedLevel._update` (Level.ts lines 147–154): drain the
pending-remove set; for each id that is present, the teardown hook
(`obj.destroy()`) fires and the entry is erased. -/
def drainRemoves (m : List GameObj) : List String → List GameObj × List Ev
  | [] => (m, [])
  | id :: rest =>
    match mapGet m id with
    | some _ =>
      let m2 := mapDelete m id
      let (m3, evs) := drainRemoves m2 rest
      (m3, Ev.destroyObj id :: evs)
    | none => drainRemoves m rest

/-- `BasedLevel._update` (Level.ts lines 138–165): drain adds, drain
removes, run the level's own update hook, then update every live object
with `active = true`, passing this frame's delta. -/
def levelUpdateFn (s : LevelState) (delta : ℚ) : LevelState × List Ev :=
  let (m1, evA) := drainAdds s.objects s.toAdd
  let (m2, evR) := drainRemoves m1 s.toRemove
  let evU := ((m2.filter (fun o => o.active)).map (fun o => Ev.updateObj o.id delta))
  ({ objects := m2, toAdd := [], toRemove := [] },
    evA ++ evR ++ Ev.levelUpdate delta :: evU)

/-- Stable insertion of an object into a depth-sorted list: the inserted
object (which originally precedes every list element) goes before the first
element of strictly greater or equal... precisely: before the first element
whose depth it does not exceed, so equal depths keep the earlier element
first. This models the stable `Array.prototype.sort` with comparator
`(a, b) => a.depth - b.depth` (Level.ts line 175). -/
def insertDepth (o : GameObj) : List GameObj → List GameObj
  | [] => [o]
  | h :: t => if o.depth ≤ h.depth then o :: h :: t else h :: insertDepth o t

/-- Stable sort by ascending depth (model of the stable JS sort). -/
def sortDepth : List GameObj → List GameObj
  | [] => []
  | h :: t => insertDepth h (sortDepth t)

/-- The world-draw order of `BasedLevel._draw` (Level.ts lines 173–175):
live objects filtered to `visible = true`, stable-sorted by ascending
depth. -/
def drawOrder (s : LevelState) : List GameObj :=
  sortDepth (s.objects.filter (fun o => o.visible))

/-- `BasedLevel._draw` (Level.ts lines 168–182): the level's own draw hook
first, then each visible object in depth order. -/
def levelDrawFn (s : LevelState) : List Ev :=
  Ev.levelDraw :: (drawOrder s).map (fun o => Ev.drawObj o.id)

/-- `BasedLevel._destroy` (Level.ts lines 208–215): destroy every live
object in map order, clear the live map, then run the level's own destroy
hook. The pending buffers are not touched by the source. -/
def levelDestroyFn (s : LevelState) : LevelState × List Ev :=
  ({ s with objects := [] },
    s.objects.map (fun o => Ev.destroyObj o.id) ++ [Ev.levelDestroy])

/-- The empty level state a fresh `BasedLevel` starts with. -/
def initLevel : LevelState := { objects := [], toAdd := [], toRemove := [] }

/-! ### Claim C1: requests issued during a frame only buffer; the live map
is untouched until the next update pass drains the buffers. -/

theorem applyReqs_objects (s : LevelState) (rs : List Req) :
    (applyReqs s rs).objects = s.objects := by
  induction rs generalizing s with
  | nil => rfl
  | cons r rest ih =>
    cases r with
    | add o => simpa [applyReqs, applyReq, addObject] using ih (addObject s o)
    | remove id =>
      simpa [applyReqs, applyReq, removeObject] using ih (removeObject s id)

theorem applyReqs_toAdd (s : LevelState) (rs : List Req) :
    (applyReqs s rs).toAdd = s.toAdd ++ addsOf rs := by
  induction rs generalizing s with
  | nil => simp [applyReqs, addsOf]
  | cons r rest ih =>
    cases r with
    | add o =>
      simp [applyReqs, applyReq, addObject, addsOf] at ih ⊢
      rw [ih]
      simp
    | remove id =>
      simp [applyReqs, applyReq, removeObject, addsOf] at ih ⊢
      exact ih _

theorem applyReqs_toRemove (s : LevelState) (rs : List Req) :
    (applyReqs s rs).toRemove = (removesOf rs).foldl setAdd s.toRemove := by
  induction rs generalizing s with
  | nil => simp [applyReqs, removesOf]
  | cons r rest ih =>
    cases r with
    | add o =>
      simp [applyReqs, applyReq, addObject, removesOf] at ih ⊢
      exact ih _
    | remove id =>
      simp [applyReqs, applyReq, removeObject, removesOf] at ih ⊢
      exact ih _

/-- Claim C1: for every sequence of addObject/removeObject requests issued
from within hooks running during a frame, the live entity map is unchanged
for the remainder of that frame — the requests are only buffered, in order,
in the pending-add list and (deduplicating) pending-remove set — and the
next frame's update pass is what drains both buffers (they are empty again
after it, their contents having been applied to the live map there). -/
theorem claim_C1_buffered_mutation (s : LevelState) (rs : List Req) (delta : ℚ) :
    (applyReqs s rs).objects = s.objects ∧
    (applyReqs s rs).toAdd = s.toAdd ++ addsOf rs ∧
    (applyReqs s rs).toRemove = (removesOf rs).foldl setAdd s.toRemove ∧
    (levelUpdateFn (applyReqs s rs) delta).1.toAdd = [] ∧
    (levelUpdateFn (applyReqs s rs) delta).1.toRemove = [] := by
  refine ⟨applyReqs_objects s rs, applyReqs_toAdd s rs, applyReqs_toRemove s rs, ?_, ?_⟩ <;>
    simp [levelUpdateFn]

/-! ### Claim C4: the world draw pass draws exactly the visible objects, in
ascending depth, with insertion-order tie-break, independent of positions. -/

theorem insertDepth_perm (o : GameObj) (l : List GameObj) :
    (insertDepth o l).Perm (o :: l) := by
  induction l with
  | nil => simp [insertDepth]
  | cons h t ih =>
    by_cases hle : o.depth ≤ h.depth
    · simp [insertDepth, hle]
    · simp only [insertDepth, if_neg hle]
      exact (ih.cons h).trans (List.Perm.swap o h t)

theorem sortDepth_perm (l : List GameObj) : (sortDepth l).Perm l := by
  induction l with
  | nil => simp [sortDepth]
  | cons h t ih =>
    exact (insertDepth_perm h (sortDepth t)).trans (ih.cons h)

theorem insertDepth_pairwise (o : GameObj) (l : List GameObj)
    (hl : l.Pairwise (fun a b => a.depth ≤ b.depth)) :
    (insertDepth o l).Pairwise (fun a b => a.depth ≤ b.depth) := by
  induction l with
  | nil => simp [insertDepth]
  | cons h t ih =>
    rcases List.pairwise_cons.mp hl with ⟨hh, ht⟩
    by_cases hle : o.depth ≤ h.depth
    · simp only [insertDepth, if_pos hle]
      refine List.pairwise_cons.mpr ⟨?_, hl⟩
      intro b hb
      rcases List.mem_cons.mp hb with hb | hb
      · subst hb
        exact hle
      · exact le_trans hle (hh b hb)
    · simp only [insertDepth, if_neg hle]
      refine List.pairwise_cons.mpr ⟨?_, ih ht⟩
      intro b hb
      have hb2 := (insertDepth_perm o t).mem_iff.mp hb
      rcases List.mem_cons.mp hb2 with hb3 | hb3
      · subst hb3
        exact le_of_lt (lt_of_not_le hle)
      · exact hh b hb3

theorem sortDepth_pairwise (l : List GameObj) :
    (sortDepth l).Pairwise (fun a b => a.depth ≤ b.depth) := by
  induction l with
  | nil => simp [sortDepth]
  | cons h t ih => exact insertDepth_pairwise h (sortDepth t) ih

theorem insertDepth_filter_depth (o : GameObj) (l : List GameObj) (d : ℚ) :
    (insertDepth o l).filter (fun g => decide (g.depth = d)) =
      ((o :: l).filter (fun g => decide (g.depth = d))) := by
  induction l with
  | nil => simp [insertDepth]
  | cons h t ih =>
    by_cases hle : o.depth ≤ h.depth
    · simp [insertDepth, hle]
    · have hlt : h.depth < o.depth := lt_of_not_le hle
      simp only [insertDepth, if_neg hle]
      by_cases hh : h.depth = d
      · by_cases ho : o.depth = d
        · exact absurd hlt (by rw [hh, ho]; exact lt_irrefl d)
        · simp [List.filter, hh, ho] at ih ⊢
          exact ih
      · simp [List.filter, hh] at ih ⊢
        exact ih

theorem sortDepth_filter_depth (l : List GameObj) (d : ℚ) :
    (sortDepth l).filter (fun g => decide (g.depth = d)) =
      l.filter (fun g => decide (g.depth = d)) := by
  induction l with
  | nil => simp [sortDepth]
  | cons h t ih =>
    rw [sortDepth, insertDepth_filter_depth h (sortDepth t) d]
    by_cases hh : h.depth = d
    · simp [List.filter, hh, ih]
    · simp [List.filter, hh, ih]

/-- A "later position change": replaces every object's `x`/`y` fields
(leaving `id`, `active`, `visible`, `depth` untouched). -/
def setPos (f : String → ℚ × ℚ) (o : GameObj) : GameObj :=
  { o with x := (f o.id).1, y := (f o.id).2 }

theorem insertDepth_map_setPos (f : String → ℚ × ℚ) (o : GameObj)
    (l : List GameObj) :
    insertDepth (setPos f o) (l.map (setPos f)) = (insertDepth o l).map (setPos f) := by
  induction l with
  | nil => rfl
  | cons h t ih =>
    by_cases hle : o.depth ≤ h.depth
    · simp [insertDepth, setPos, hle]
    · simp [insertDepth, setPos, hle] at ih ⊢
      exact ih

theorem sortDepth_map_setPos (f : String → ℚ × ℚ) (l : List GameObj) :
    sortDepth (l.map (setPos f)) = (sortDepth l).map (setPos f) := by
  induction l with
  | nil => rfl
  | cons h t ih =>
    simp only [List.map_cons, sortDepth, ih]
    exact insertDepth_map_setPos f h (sortDepth t)

/-- Claim C4: in the world draw pass, after the level's own draw hook runs,
exactly the objects with `visible = true` are drawn, in ascending order of
`depth`, objects of equal depth appearing in live-map insertion order, and
the order is unaffected by position changes. -/
theorem claim_C4_draw_order (s : LevelState) (d : ℚ) (f : String → ℚ × ℚ) :
    levelDrawFn s = Ev.levelDraw :: (drawOrder s).map (fun o => Ev.drawObj o.id) ∧
    (drawOrder s).Perm (s.objects.filter (fun o => o.visible)) ∧
    (drawOrder s).Pairwise (fun a b => a.depth ≤ b.depth) ∧
    (drawOrder s).filter (fun g => decide (g.depth = d)) =
      (s.objects.filter (fun o => o.visible)).filter (fun g => decide (g.depth = d)) ∧
    (drawOrder { s with objects := s.objects.map (setPos f) }).map (fun o => o.id) =
      (drawOrder s).map (fun o => o.id) := by
  refine ⟨rfl, sortDepth_perm _, sortDepth_pairwise _, sortDepth_filter_depth _ d, ?_⟩
  have hfilter : (s.objects.map (setPos f)).filter (fun o => o.visible) =
      (s.objects.filter (fun o => o.visible)).map (setPos f) := by
    rw [List.filter_map]
    rfl
  have hmapid : ∀ l : List GameObj,
      (l.map (setPos f)).map (fun o => o.id) = l.map (fun o => o.id) := by
    intro l
    simp [setPos]
  calc (drawOrder { s with objects := s.objects.map (setPos f) }).map (fun o => o.id)
      = ((sortDepth (s.objects.filter (fun o => o.visible))).map (setPos f)).map
          (fun o => o.id) := by
        rw [drawOrder]
        simp only [hfilter, sortDepth_map_setPos]
    _ = (drawOrder s).map (fun o => o.id) := hmapid _

/-! ### Claim C2: fixed order of the internal update pass. -/

theorem drainAdds_events (l m : List GameObj) :
    (drainAdds m l).2 = l.map (fun o => Ev.create o.id) := by
  induction l generalizing m with
  | nil => rfl
  | cons o rest ih => simp [drainAdds, ih]

theorem drainRemoves_cons (m : List GameObj) (id : String) (rest : List String) :
    drainRemoves m (id :: rest) =
      match mapGet m id with
      | some _ => ((drainRemoves (mapDelete m id) rest).1,
          Ev.destroyObj id :: (drainRemoves (mapDelete m id) rest).2)
      | none => drainRemoves m rest := by
  cases h : mapGet m id <;> simp [drainRemoves, h]

theorem drainRemoves_events (rs : List String) (m : List GameObj) :
    ∀ e ∈ (drainRemoves m rs).2, ∃ i, e = Ev.destroyObj i ∧ i ∈ rs := by
  induction rs generalizing m with
  | nil => simp [drainRemoves]
  | cons id rest ih =>
    intro e he
    rw [drainRemoves_cons] at he
    cases hg : mapGet m id with
    | some o =>
      rw [hg] at he
      rcases List.mem_cons.mp he with he | he
      · exact ⟨id, he, List.mem_cons_self id rest⟩
      · obtain ⟨i, hei, hir⟩ := ih (mapDelete m id) e he
        exact ⟨i, hei, List.mem_cons_of_mem id hir⟩
    | none =>
      rw [hg] at he
      obtain ⟨i, hei, hir⟩ := ih m e he
      exact ⟨i, hei, List.mem_cons_of_mem id hir⟩

theorem drainRemoves_subset (rs : List String) (m : List GameObj) (o : GameObj)
    (ho : o ∈ (drainRemoves m rs).1) : o ∈ m := by
  induction rs generalizing m with
  | nil => exact ho
  | cons id rest ih =>
    rw [drainRemoves_cons] at ho
    cases hg : mapGet m id with
    | some p =>
      rw [hg] at ho
      exact List.mem_of_mem_filter (ih (mapDelete m id) ho)
    | none =>
      rw [hg] at ho
      exact ih m ho

theorem drainRemoves_destroyed (rs : List String) (m : List GameObj) (i : String)
    (h : Ev.destroyObj i ∈ (drainRemoves m rs).2) :
    ∀ o ∈ (drainRemoves m rs).1, o.id ≠ i := by
  induction rs generalizing m with
  | nil => simp [drainRemoves] at h
  | cons id rest ih =>
    cases hg : mapGet m id with
    | some p =>
      simp only [drainRemoves_cons, hg] at h ⊢
      rcases List.mem_cons.mp h with h1 | h1
      · intro o ho
        have hdel : o ∈ mapDelete m id := drainRemoves_subset rest (mapDelete m id) o ho
        have : o.id ≠ id := by
          have := List.of_mem_filter hdel
          simpa using this
        injection h1 with hid
        rw [hid]
        exact this
      · exact ih (mapDelete m id) h1
    | none =>
      simp only [drainRemoves_cons, hg] at h ⊢
      exact ih m h

theorem mapSet_mem_self (m : List GameObj) (o : GameObj) : o ∈ mapSet m o := by
  unfold mapSet
  by_cases h : m.any (fun p => p.id == o.id)
  · rw [if_pos h]
    obtain ⟨p, hp, hpid⟩ := List.any_eq_true.mp h
    exact List.mem_map.mpr ⟨p, hp, by simp [hpid]⟩
  · rw [if_neg h]
    simp

theorem mapSet_mem_keep (m : List GameObj) (a o : GameObj) (ho : o ∈ m)
    (hne : o.id ≠ a.id) : o ∈ mapSet m a := by
  unfold mapSet
  by_cases h : m.any (fun p => p.id == a.id)
  · rw [if_pos h]
    exact List.mem_map.mpr ⟨o, ho, by simp [hne]⟩
  · rw [if_neg h]
    exact List.mem_append_left _ ho

theorem drainAdds_mem (l : List GameObj) (m : List GameObj) (o : GameObj)
    (h : ∀ o' ∈ l, o'.id = o.id → o' = o) (ho : o ∈ l ∨ o ∈ m) :
    o ∈ (drainAdds m l).1 := by
  induction l generalizing m with
  | nil =>
    rcases ho with ho | ho
    · simp at ho
    · exact ho
  | cons a t ih =>
    have hstep : o ∈ t ∨ o ∈ mapSet m a := by
      by_cases hao : a = o
      · right
        subst hao
        exact mapSet_mem_self m a
      · have hne : o.id ≠ a.id := by
          intro he
          exact hao (h a (List.mem_cons_self a t) he.symm)
        rcases ho with ho | ho
        · rcases List.mem_cons.mp ho with ho | ho
          · exact absurd ho.symm hao
          · exact Or.inl ho
        · exact Or.inr (mapSet_mem_keep m a o ho hne)
    exact ih (mapSet m a) (fun o' ho' he => h o' (List.mem_cons_of_mem a ho') he) hstep

theorem drainRemoves_keep (rs : List String) (m : List GameObj) (o : GameObj)
    (h : o.id ∉ rs) (ho : o ∈ m) : o ∈ (drainRemoves m rs).1 := by
  induction rs generalizing m with
  | nil => exact ho
  | cons id rest ih =>
    have hne : o.id ≠ id := fun he => h (he ▸ List.mem_cons_self id rest)
    have hrest : o.id ∉ rest := fun he => h (List.mem_cons_of_mem id he)
    cases hg : mapGet m id with
    | some p =>
      simp only [drainRemoves_cons, hg]
      refine ih (mapDelete m id) hrest ?_
      exact List.mem_filter.mpr ⟨ho, by simp [hne]⟩
    | none =>
      simp only [drainRemoves_cons, hg]
      exact ih m hrest ho

/-- Claim C2 (amended): each frame the update pass runs in fixed order —
pending adds drained in insertion order (insert, then creation hook), then
pending removes (teardown hook, then erase), then the level's own update
hook, then the update hook of every live object with `active = true` with
this frame's delta. An object drained from the pending-add list receives
its first update in the same frame provided it is active and its id is not
in the pending-remove set; an object removed in the remove drain receives
no update that frame. -/
theorem claim_C2_update_pass_order (s : LevelState) (delta : ℚ) :
    (∃ R, (∀ e ∈ R, ∃ i, e = Ev.destroyObj i ∧ i ∈ s.toRemove) ∧
      (levelUpdateFn s delta).2 =
        s.toAdd.map (fun o => Ev.create o.id) ++ R ++
          Ev.levelUpdate delta ::
            (((levelUpdateFn s delta).1.objects.filter (fun o => o.active)).map
              (fun o => Ev.updateObj o.id delta))) ∧
    (∀ i, Ev.destroyObj i ∈ (levelUpdateFn s delta).2 →
      ∀ d', Ev.updateObj i d' ∉ (levelUpdateFn s delta).2) ∧
    (∀ o ∈ s.toAdd, o.active = true → o.id ∉ s.toRemove →
      (∀ o' ∈ s.toAdd, o'.id = o.id → o' = o) →
      Ev.updateObj o.id delta ∈ (levelUpdateFn s delta).2) := by
  have hEv : (levelUpdateFn s delta).2 =
      (drainAdds s.objects s.toAdd).2 ++
        (drainRemoves (drainAdds s.objects s.toAdd).1 s.toRemove).2 ++
          Ev.levelUpdate delta ::
            (((drainRemoves (drainAdds s.objects s.toAdd).1 s.toRemove).1.filter
                (fun o => o.active)).map (fun o => Ev.updateObj o.id delta)) := rfl
  have hObj : (levelUpdateFn s delta).1.objects =
      (drainRemoves (drainAdds s.objects s.toAdd).1 s.toRemove).1 := rfl
  refine ⟨?_, ?_, ?_⟩
  · refine ⟨(drainRemoves (drainAdds s.objects s.toAdd).1 s.toRemove).2,
      drainRemoves_events _ _, ?_⟩
    rw [hEv, hObj, drainAdds_events]
  · intro i hdest d' hupd
    rw [hEv] at hdest hupd
    have hR : Ev.destroyObj i ∈
        (drainRemoves (drainAdds s.objects s.toAdd).1 s.toRemove).2 := by
      rcases List.mem_append.mp hdest with hAR | hU
      · rcases List.mem_append.mp hAR with hA | hR
        · rw [drainAdds_events] at hA
          simp at hA
        · exact hR
      · rcases List.mem_cons.mp hU with h | h
        · exact absurd h (by simp)
        · simp at h
    have habs := drainRemoves_destroyed s.toRemove (drainAdds s.objects s.toAdd).1 i hR
    rcases List.mem_append.mp hupd with hAR | hU
    · rcases List.mem_append.mp hAR with hA | hR2
      · rw [drainAdds_events] at hA
        simp at hA
      · obtain ⟨j, hj, _⟩ := drainRemoves_events s.toRemove _ _ hR2
        simp at hj
    · rcases List.mem_cons.mp hU with h | h
      · exact absurd h (by simp)
      · obtain ⟨o, hof, hoe⟩ := List.mem_map.mp h
        have hoid : o.id = i := by
          injection hoe with h1 h2
        exact habs o (List.mem_of_mem_filter hof) hoid
  · intro o ho hact hnr huniq
    have hmem : o ∈ (drainAdds s.objects s.toAdd).1 :=
      drainAdds_mem s.toAdd s.objects o huniq (Or.inl ho)
    have hmem2 : o ∈ (drainRemoves (drainAdds s.objects s.toAdd).1 s.toRemove).1 :=
      drainRemoves_keep s.toRemove _ o hnr hmem
    rw [hEv]
    refine List.mem_append_right _ (List.mem_cons_of_mem _ ?_)
    exact List.mem_map.mpr ⟨o, List.mem_filter.mpr ⟨hmem2, hact⟩, rfl⟩

/-- A concrete active, visible object with id `"x"`. -/
def objX : GameObj :=
  { id := "x", active := true, visible := true, depth := 0, x := 0, y := 0 }

/-- A level state in which `objX` is pending-add and `"x"` is simultaneously
pending-remove (as produced by calling `addObject(objX)` and
`removeObject("x")` in the previous frame's hooks). -/
def cexC2 : LevelState := { objects := [], toAdd := [objX], toRemove := ["x"] }

/-- Counterexample to claim C2 as stated: `objX` is added (and is active)
in step 1 of this frame's update pass, yet it receives no update in step 4
of the same frame, because its id is also drained from the pending-remove
set in step 2: the frame's full event list is create, destroy, level
update — with no object update at all. -/
theorem claim_C2_counterexample :
    objX ∈ cexC2.toAdd ∧ objX.active = true ∧
    (levelUpdateFn cexC2 1).2 =
      [Ev.create "x", Ev.destroyObj "x", Ev.levelUpdate 1] ∧
    Ev.updateObj "x" 1 ∉ (levelUpdateFn cexC2 1).2 := by
  refine ⟨by decide, by decide, by decide, by decide⟩

/-! ### Claim C3: teardown fires exactly once and is never followed by
update or draw. The level is modelled as a labelled transition system over
externally triggered actions: public mutation requests (issued by hooks
between lifecycle passes), frames (`_update`), draw passes (`_draw`) and
the level's destruction (`_destroy`), each appending its hook events. -/

/-- One externally triggered action on a level over its lifetime. -/
inductive Act where
  | request (r : Req)
  | frame (delta : ℚ)
  | draw
  | destroyLevel
deriving DecidableEq, Repr

/-- One action step: requests only mutate the pending buffers; the other
actions run the corresponding internal pass and append its events. -/
def stepAct (p : LevelState × List Ev) (a : Act) : LevelState × List Ev :=
  match a with
  | .request r => (applyReq p.1 r, p.2)
  | .frame delta =>
    let r := levelUpdateFn p.1 delta
    (r.1, p.2 ++ r.2)
  | .draw => (p.1, p.2 ++ levelDrawFn p.1)
  | .destroyLevel =>
    let r := levelDestroyFn p.1
    (r.1, p.2 ++ r.2)

/-- Run a level from its fresh state through a sequence of actions. -/
def runActs (acts : List Act) : LevelState × List Ev :=
  acts.foldl stepAct (initLevel, [])

/-- Does an event mention (create/destroy/update/draw) the object `id`? -/
def touchesId (id : String) : Ev → Bool
  | .create i => i == id
  | .destroyObj i => i == id
  | .updateObj i _ => i == id
  | .drawObj i => i == id
  | _ => false

/-- Number of objects with the given id in an object list. -/
def cntObj (l : List GameObj) (id : String) : Nat :=
  l.countP (fun o => o.id == id)

/-- Number of creation-hook events for `id`. -/
def cntCreate (E : List Ev) (id : String) : Nat :=
  E.countP (fun e => e == Ev.create id)

/-- Number of teardown-hook events for `id`. -/
def cntDestroy (E : List Ev) (id : String) : Nat :=
  E.countP (fun e => e == Ev.destroyObj id)

/-- Number of add-requests for objects with the given id in an action
sequence. -/
def addsFor (id : String) (acts : List Act) : Nat :=
  acts.countP (fun a =>
    match a with
    | .request (.add o) => o.id == id
    | _ => false)

/-- Is a teardown event for `id` present? -/
def hasDestroy (id : String) (E : List Ev) : Bool :=
  E.any (fun e => e == Ev.destroyObj id)

/-- Scans an event list; once a teardown event for `id` has been seen
(`dead` records whether one was seen before the list), no later event may
mention `id` at all. -/
def cleanFrom (id : String) (dead : Bool) : List Ev → Bool
  | [] => true
  | e :: rest =>
    if dead then !(touchesId id e) && cleanFrom id true rest
    else if e == Ev.destroyObj id then cleanFrom id true rest
    else cleanFrom id false rest

theorem cleanFrom_true_iff (id : String) (E : List Ev) :
    cleanFrom id true E = E.all (fun e => !(touchesId id e)) := by
  induction E with
  | nil => rfl
  | cons e rest ih => simp [cleanFrom, ih]

theorem hasDestroy_append (id : String) (E F : List Ev) :
    hasDestroy id (E ++ F) = (hasDestroy id E || hasDestroy id F) := by
  simp [hasDestroy]

theorem touchesId_destroy_self (id : String) :
    touchesId id (Ev.destroyObj id) = true := by
  simp [touchesId]

theorem cleanFrom_append (id : String) (d : Bool) (E F : List Ev) :
    cleanFrom id d (E ++ F) =
      (cleanFrom id d E && cleanFrom id (d || hasDestroy id E) F) := by
  induction E generalizing d with
  | nil => simp [cleanFrom, hasDestroy]
  | cons e rest ih =>
    by_cases he : e = Ev.destroyObj id
    · subst he
      cases d with
      | false => simp [cleanFrom, ih true, hasDestroy]
      | true => simp [cleanFrom, touchesId, ih true, hasDestroy]
    · have hbe : (e == Ev.destroyObj id) = false := by
        simp [he]
      cases d with
      | false =>
        simp only [List.cons_append, cleanFrom, hbe, Bool.false_eq_true,
          if_false, ih false]
        have hh : hasDestroy id (e :: rest) = hasDestroy id rest := by
          simp [hasDestroy, hbe]
        rw [hh]
        exact ih false
      | true =>
        cases htouch : touchesId id e with
        | true => simp [cleanFrom, htouch, ih true, hasDestroy, hbe]
        | false => simp [cleanFrom, htouch, ih true, hasDestroy, hbe]

theorem cleanFrom_false_of_no_destroy (id : String) (E : List Ev)
    (h : hasDestroy id E = false) : cleanFrom id false E = true := by
  induction E with
  | nil => rfl
  | cons e rest ih =>
    have he : (e == Ev.destroyObj id) = false := by
      by_contra hc
      rw [Bool.not_eq_false] at hc
      simp [hasDestroy, beq_iff_eq.mp hc] at h
    have hrest : hasDestroy id rest = false := by
      simp [hasDestroy] at h ⊢
      intro x hx
      exact h.2 x hx
    simp [cleanFrom, he, ih hrest]

theorem cntObj_eq_zero_iff (m : List GameObj) (id : String) :
    cntObj m id = 0 ↔ ∀ o ∈ m, o.id ≠ id := by
  simp [cntObj, List.countP_eq_zero]

theorem mapSet_cnt_ne (m : List GameObj) (a : GameObj) (id : String)
    (h : a.id ≠ id) : cntObj (mapSet m a) id = cntObj m id := by
  unfold mapSet
  by_cases hany : m.any (fun p => p.id == a.id)
  · rw [if_pos hany]
    unfold cntObj
    rw [List.countP_map]
    apply List.countP_congr
    intro p hp
    by_cases hpa : p.id = a.id
    · simp [Function.comp, hpa, h]
    · simp [Function.comp, hpa]
  · rw [if_neg hany]
    simp [cntObj, List.countP_append, h]

theorem mapSet_cnt_self (m : List GameObj) (o : GameObj)
    (h : cntObj m o.id = 0) : cntObj (mapSet m o) o.id = 1 := by
  have hall : ∀ p ∈ m, p.id ≠ o.id := (cntObj_eq_zero_iff m o.id).mp h
  have hany : (m.any fun p => p.id == o.id) = false := by
    rw [List.any_eq_false]
    intro q hq
    simp only [beq_iff_eq]
    exact hall q hq
  unfold mapSet
  rw [hany]
  simp only [Bool.false_eq_true, if_false, cntObj, List.countP_append]
  rw [← cntObj, h]
  simp

theorem mapDelete_cnt_self (m : List GameObj) (id : String) :
    cntObj (mapDelete m id) id = 0 := by
  rw [cntObj_eq_zero_iff]
  intro o ho
  have := List.of_mem_filter ho
  simpa using this

theorem mapDelete_cnt_ne (m : List GameObj) (i id : String) (h : i ≠ id) :
    cntObj (mapDelete m i) id = cntObj m id := by
  unfold mapDelete cntObj
  rw [List.countP_filter]
  apply List.countP_congr
  intro o ho
  by_cases hoid : o.id = id
  · simp [hoid, Ne.symm h]
  · simp [hoid]

theorem mapGet_none_cnt (m : List GameObj) (id : String)
    (h : mapGet m id = none) : cntObj m id = 0 := by
  rw [cntObj_eq_zero_iff]
  intro o ho
  have := List.find?_eq_none.mp h o ho
  simpa using this

theorem mapGet_some_cnt (m : List GameObj) (id : String) (p : GameObj)
    (h : mapGet m id = some p) : 0 < cntObj m id := by
  rw [cntObj, List.countP_pos_iff]
  have hs : (m.find? fun o => o.id == id).isSome := by
    rw [mapGet] at h
    rw [h]
    rfl
  obtain ⟨x, hx, hpx⟩ := List.find?_isSome.mp hs
  exact ⟨x, hx, hpx⟩

theorem drainAdds_cnt (l m : List GameObj) (id : String)
    (h : cntObj m id + cntObj l id ≤ 1) :
    cntObj (drainAdds m l).1 id = cntObj m id + cntObj l id := by
  induction l generalizing m with
  | nil => simp [drainAdds, cntObj]
  | cons a t ih =>
    by_cases ha : a.id = id
    · have h1 : cntObj (a :: t) id = 1 + cntObj t id := by
        simp [cntObj, List.countP_cons, ha]
        omega
      rw [h1] at h
      have hm : cntObj m id = 0 := by omega
      have ht : cntObj t id = 0 := by omega
      have hset : cntObj (mapSet m a) id = 1 := by
        have := mapSet_cnt_self m a (by rwa [ha])
        rwa [ha] at this
      have := ih (mapSet m a) (by rw [hset]; omega)
      simp only [drainAdds] at this ⊢
      rw [this, hset, h1, hm, ht]
    · have h1 : cntObj (a :: t) id = cntObj t id := by
        simp [cntObj, List.countP_cons, ha]
      have hset : cntObj (mapSet m a) id = cntObj m id :=
        mapSet_cnt_ne m a id ha
      rw [h1] at h
      have := ih (mapSet m a) (by rw [hset]; omega)
      simp only [drainAdds] at this ⊢
      rw [this, hset, h1]

theorem cntCreate_map_create (l : List GameObj) (id : String) :
    cntCreate (l.map (fun o => Ev.create o.id)) id = cntObj l id := by
  induction l with
  | nil => rfl
  | cons o t ih =>
    simp only [List.map_cons, cntCreate, cntObj, List.countP_cons] at *
    rw [ih]
    by_cases ho : o.id = id
    · simp [ho]
    · simp [ho]

theorem drainRemoves_cnt (rs : List String) (m : List GameObj) (id : String)
    (h : cntObj m id ≤ 1) :
    cntObj (drainRemoves m rs).1 id = (if id ∈ rs then 0 else cntObj m id) ∧
    cntDestroy (drainRemoves m rs).2 id = (if id ∈ rs then cntObj m id else 0) := by
  induction rs generalizing m with
  | nil => simp [drainRemoves, cntDestroy]
  | cons r rest ih =>
    by_cases hr : r = id
    · subst hr
      cases hg : mapGet m r with
      | some p =>
        have hm1 : 0 < cntObj m r := mapGet_some_cnt m r p hg
        have hm : cntObj m r = 1 := by omega
        have hdel : cntObj (mapDelete m r) r = 0 := mapDelete_cnt_self m r
        obtain ⟨hc, hd⟩ := ih (mapDelete m r) (by omega)
        simp only [drainRemoves_cons, hg]
        constructor
        · simp only [List.mem_cons, true_or, if_true]
          rw [hc, hdel]
          by_cases hmem : r ∈ rest <;> simp [hmem]
        · simp only [List.mem_cons, true_or, if_true]
          rw [cntDestroy, List.countP_cons, ← cntDestroy, hd, hdel, hm]
          by_cases hmem : r ∈ rest <;> simp [hmem]
      | none =>
        have hm : cntObj m r = 0 := mapGet_none_cnt m r hg
        obtain ⟨hc, hd⟩ := ih m h
        simp only [drainRemoves_cons, hg]
        constructor
        · rw [hc, hm]
          by_cases hmem : r ∈ rest <;> simp [hmem]
        · rw [hd, hm]
          by_cases hmem : r ∈ rest <;> simp [hmem]
    · have hmemiff : (id ∈ r :: rest) ↔ id ∈ rest := by
        constructor
        · intro hm2
          rcases List.mem_cons.mp hm2 with he | he
          · exact absurd he.symm hr
          · exact he
        · exact fun hm2 => List.mem_cons_of_mem r hm2
      cases hg : mapGet m r with
      | some p =>
        have hdel : cntObj (mapDelete m r) id = cntObj m id :=
          mapDelete_cnt_ne m r id hr
        obtain ⟨hc, hd⟩ := ih (mapDelete m r) (by rw [hdel]; exact h)
        simp only [drainRemoves_cons, hg]
        constructor
        · rw [hc, hdel]
          by_cases hmem : id ∈ rest <;> simp [hmem, hmemiff]
        · have hne : (Ev.destroyObj r == Ev.destroyObj id) = false := by
            simp [hr]
          rw [cntDestroy, List.countP_cons, ← cntDestroy, hd, hdel, hne]
          by_cases hmem : id ∈ rest <;> simp [hmem, hmemiff]
      | none =>
        obtain ⟨hc, hd⟩ := ih m h
        simp only [drainRemoves_cons, hg]
        constructor
        · rw [hc]
          by_cases hmem : id ∈ rest <;> simp [hmem, hmemiff]
        · rw [hd]
          by_cases hmem : id ∈ rest <;> simp [hmem, hmemiff]

theorem cntCreate_eq_zero_of (E : List Ev) (id : String)
    (h : ∀ e ∈ E, e ≠ Ev.create id) : cntCreate E id = 0 := by
  rw [cntCreate, List.countP_eq_zero]
  intro e he
  simp [h e he]

theorem cntDestroy_eq_zero_of (E : List Ev) (id : String)
    (h : ∀ e ∈ E, e ≠ Ev.destroyObj id) : cntDestroy E id = 0 := by
  rw [cntDestroy, List.countP_eq_zero]
  intro e he
  simp [h e he]

theorem hasDestroy_eq_false_of (E : List Ev) (id : String)
    (h : ∀ e ∈ E, e ≠ Ev.destroyObj id) : hasDestroy id E = false := by
  rw [hasDestroy, List.any_eq_false]
  intro e he
  simp [h e he]

theorem cleanFrom_of_destroy_once (id : String) (E : List Ev)
    (h1 : ∀ e ∈ E, touchesId id e = false ∨ e = Ev.destroyObj id)
    (h2 : cntDestroy E id ≤ 1) : cleanFrom id false E = true := by
  induction E with
  | nil => rfl
  | cons e rest ih =>
    by_cases he : e = Ev.destroyObj id
    · subst he
      have hcnt : cntDestroy rest id = 0 := by
        have : cntDestroy (Ev.destroyObj id :: rest) id = cntDestroy rest id + 1 := by
          simp [cntDestroy, List.countP_cons]
        omega
      have hnod : ∀ e ∈ rest, e ≠ Ev.destroyObj id := by
        intro e hemem
        have := (List.countP_eq_zero.mp hcnt) e hemem
        intro hcontra
        rw [hcontra] at this
        simp at this
      simp only [cleanFrom, beq_self_eq_true, if_true, Bool.false_eq_true,
        if_false, cleanFrom_true_iff]
      rw [List.all_eq_true]
      intro e hemem
      rcases h1 e (List.mem_cons_of_mem _ hemem) with ht | ht
      · simp [ht]
      · exact absurd ht (hnod e hemem)
    · have hbe : (e == Ev.destroyObj id) = false := by simp [he]
      have hcnt : cntDestroy (e :: rest) id = cntDestroy rest id := by
        simp [cntDestroy, List.countP_cons, hbe]
      rw [hcnt] at h2
      simp only [cleanFrom, hbe, Bool.false_eq_true, if_false]
      exact ih (fun x hx => h1 x (List.mem_cons_of_mem _ hx)) h2

theorem cntDestroy_map_destroy (l : List GameObj) (id : String) :
    cntDestroy (l.map fun o => Ev.destroyObj o.id) id = cntObj l id := by
  induction l with
  | nil => rfl
  | cons o t ih =>
    simp only [List.map_cons, cntDestroy, cntObj, List.countP_cons] at *
    rw [ih]
    by_cases ho : o.id = id
    · simp [ho]
    · simp [ho]

theorem cntCreate_append (E F : List Ev) (id : String) :
    cntCreate (E ++ F) id = cntCreate E id + cntCreate F id := by
  simp [cntCreate, List.countP_append]

theorem cntDestroy_append (E F : List Ev) (id : String) :
    cntDestroy (E ++ F) id = cntDestroy E id + cntDestroy F id := by
  simp [cntDestroy, List.countP_append]

theorem frame_cnts (s : LevelState) (delta : ℚ) (id : String)
    (hsum : cntObj s.objects id + cntObj s.toAdd id ≤ 1) :
    cntCreate (levelUpdateFn s delta).2 id = cntObj s.toAdd id ∧
    cntDestroy (levelUpdateFn s delta).2 id =
      (if id ∈ s.toRemove then cntObj s.objects id + cntObj s.toAdd id else 0) ∧
    cntObj (levelUpdateFn s delta).1.objects id =
      (if id ∈ s.toRemove then 0 else cntObj s.objects id + cntObj s.toAdd id) := by
  have hEv : (levelUpdateFn s delta).2 =
      (drainAdds s.objects s.toAdd).2 ++
        (drainRemoves (drainAdds s.objects s.toAdd).1 s.toRemove).2 ++
          Ev.levelUpdate delta ::
            (((drainRemoves (drainAdds s.objects s.toAdd).1 s.toRemove).1.filter
                (fun o => o.active)).map (fun o => Ev.updateObj o.id delta)) := rfl
  have hObj : (levelUpdateFn s delta).1.objects =
      (drainRemoves (drainAdds s.objects s.toAdd).1 s.toRemove).1 := rfl
  have hm1 : cntObj (drainAdds s.objects s.toAdd).1 id =
      cntObj s.objects id + cntObj s.toAdd id := drainAdds_cnt _ _ _ hsum
  obtain ⟨hc, hd⟩ := drainRemoves_cnt s.toRemove (drainAdds s.objects s.toAdd).1 id
    (by omega)
  have hAc : cntCreate (drainAdds s.objects s.toAdd).2 id = cntObj s.toAdd id := by
    rw [drainAdds_events]
    exact cntCreate_map_create _ _
  have hRc : cntCreate
      (drainRemoves (drainAdds s.objects s.toAdd).1 s.toRemove).2 id = 0 := by
    apply cntCreate_eq_zero_of
    intro e he
    obtain ⟨i, hei, _⟩ := drainRemoves_events _ _ e he
    rw [hei]
    simp
  have hAd : cntDestroy (drainAdds s.objects s.toAdd).2 id = 0 := by
    apply cntDestroy_eq_zero_of
    rw [drainAdds_events]
    intro e he
    obtain ⟨o, _, heo⟩ := List.mem_map.mp he
    rw [← heo]
    simp
  have hUc : ∀ d : ℚ, cntCreate (Ev.levelUpdate d ::
      (((drainRemoves (drainAdds s.objects s.toAdd).1 s.toRemove).1.filter
          (fun o => o.active)).map (fun o => Ev.updateObj o.id delta))) id = 0 := by
    intro d
    apply cntCreate_eq_zero_of
    intro e he
    rcases List.mem_cons.mp he with he | he
    · rw [he]
      simp
    · obtain ⟨o, _, heo⟩ := List.mem_map.mp he
      rw [← heo]
      simp
  have hUd : ∀ d : ℚ, cntDestroy (Ev.levelUpdate d ::
      (((drainRemoves (drainAdds s.objects s.toAdd).1 s.toRemove).1.filter
          (fun o => o.active)).map (fun o => Ev.updateObj o.id delta))) id = 0 := by
    intro d
    apply cntDestroy_eq_zero_of
    intro e he
    rcases List.mem_cons.mp he with he | he
    · rw [he]
      simp
    · obtain ⟨o, _, heo⟩ := List.mem_map.mp he
      rw [← heo]
      simp
  refine ⟨?_, ?_, ?_⟩
  · rw [hEv, cntCreate_append, cntCreate_append, hAc, hRc, hUc delta]
    omega
  · rw [hEv, cntDestroy_append, cntDestroy_append, hAd, hd, hm1, hUd delta]
    omega
  · rw [hObj, hc, hm1]

theorem frame_cleanFrom (s : LevelState) (delta : ℚ) (id : String)
    (hsum : cntObj s.objects id + cntObj s.toAdd id ≤ 1) :
    cleanFrom id false (levelUpdateFn s delta).2 = true := by
  have hEv : (levelUpdateFn s delta).2 =
      (drainAdds s.objects s.toAdd).2 ++
        (drainRemoves (drainAdds s.objects s.toAdd).1 s.toRemove).2 ++
          Ev.levelUpdate delta ::
            (((drainRemoves (drainAdds s.objects s.toAdd).1 s.toRemove).1.filter
                (fun o => o.active)).map (fun o => Ev.updateObj o.id delta)) := rfl
  have hm1 : cntObj (drainAdds s.objects s.toAdd).1 id =
      cntObj s.objects id + cntObj s.toAdd id := drainAdds_cnt _ _ _ hsum
  obtain ⟨hc, hd⟩ := drainRemoves_cnt s.toRemove (drainAdds s.objects s.toAdd).1 id
    (by omega)
  have hAno : hasDestroy id (drainAdds s.objects s.toAdd).2 = false := by
    apply hasDestroy_eq_false_of
    rw [drainAdds_events]
    intro e he
    obtain ⟨o, _, heo⟩ := List.mem_map.mp he
    rw [← heo]
    simp
  have hAcl : cleanFrom id false (drainAdds s.objects s.toAdd).2 = true :=
    cleanFrom_false_of_no_destroy _ _ hAno
  have hRcl : cleanFrom id false
      (drainRemoves (drainAdds s.objects s.toAdd).1 s.toRemove).2 = true := by
    apply cleanFrom_of_destroy_once
    · intro e he
      obtain ⟨i, hei, _⟩ := drainRemoves_events _ _ e he
      by_cases hii : i = id
      · right
        rw [hei, hii]
      · left
        rw [hei]
        simp [touchesId, hii]
    · rw [hd, hm1]
      by_cases hmem : id ∈ s.toRemove <;> simp [hmem] <;> omega
  have hX : cleanFrom id
      (hasDestroy id (drainRemoves (drainAdds s.objects s.toAdd).1 s.toRemove).2)
      (Ev.levelUpdate delta ::
        (((drainRemoves (drainAdds s.objects s.toAdd).1 s.toRemove).1.filter
            (fun o => o.active)).map (fun o => Ev.updateObj o.id delta))) = true := by
    cases hRdest : hasDestroy id
        (drainRemoves (drainAdds s.objects s.toAdd).1 s.toRemove).2 with
    | false =>
      apply cleanFrom_false_of_no_destroy
      apply hasDestroy_eq_false_of
      intro e he
      rcases List.mem_cons.mp he with he | he
      · rw [he]
        simp
      · obtain ⟨o, _, heo⟩ := List.mem_map.mp he
        rw [← heo]
        simp
    | true =>
      obtain ⟨e, hemem, hee⟩ := List.any_eq_true.mp hRdest
      have hdmem : Ev.destroyObj id ∈
          (drainRemoves (drainAdds s.objects s.toAdd).1 s.toRemove).2 := by
        rw [beq_iff_eq] at hee
        rwa [hee] at hemem
      have habs := drainRemoves_destroyed s.toRemove _ id hdmem
      rw [cleanFrom_true_iff, List.all_eq_true]
      intro e2 he2
      rcases List.mem_cons.mp he2 with he2 | he2
      · rw [he2]
        simp [touchesId]
      · obtain ⟨o, hof, heo⟩ := List.mem_map.mp he2
        rw [← heo]
        have : o.id ≠ id := habs o (List.mem_of_mem_filter hof)
        simp [touchesId, this]
  rw [hEv, cleanFrom_append, cleanFrom_append]
  rw [hasDestroy_append, hAno]
  simp only [Bool.false_or]
  rw [hAcl, hRcl]
  simp only [Bool.true_and]
  exact hX

theorem frame_untouched (s : LevelState) (delta : ℚ) (id : String)
    (hobj : cntObj s.objects id = 0) (hadd : cntObj s.toAdd id = 0) :
    ((levelUpdateFn s delta).2.all fun e => !(touchesId id e)) = true := by
  have hEv : (levelUpdateFn s delta).2 =
      (drainAdds s.objects s.toAdd).2 ++
        (drainRemoves (drainAdds s.objects s.toAdd).1 s.toRemove).2 ++
          Ev.levelUpdate delta ::
            (((drainRemoves (drainAdds s.objects s.toAdd).1 s.toRemove).1.filter
                (fun o => o.active)).map (fun o => Ev.updateObj o.id delta)) := rfl
  have hm1 : cntObj (drainAdds s.objects s.toAdd).1 id = 0 := by
    have := drainAdds_cnt s.toAdd s.objects id (by omega)
    omega
  obtain ⟨hc, hdcnt⟩ := drainRemoves_cnt s.toRemove (drainAdds s.objects s.toAdd).1 id
    (by omega)
  have hm2 : cntObj (drainRemoves (drainAdds s.objects s.toAdd).1 s.toRemove).1 id = 0 := by
    rw [hc, hm1]
    by_cases hmem : id ∈ s.toRemove <;> simp [hmem]
  rw [hEv]
  rw [List.all_append, List.all_append]
  have hA : ((drainAdds s.objects s.toAdd).2.all fun e => !(touchesId id e)) = true := by
    rw [drainAdds_events, List.all_eq_true]
    intro e he
    obtain ⟨o, homem, heo⟩ := List.mem_map.mp he
    have : o.id ≠ id := (cntObj_eq_zero_iff _ _).mp hadd o homem
    rw [← heo]
    simp [touchesId, this]
  have hR : ((drainRemoves (drainAdds s.objects s.toAdd).1 s.toRemove).2.all
      fun e => !(touchesId id e)) = true := by
    rw [List.all_eq_true]
    intro e he
    obtain ⟨i, hei, _⟩ := drainRemoves_events _ _ e he
    have hii : i ≠ id := by
      intro hcontra
      have hdmem : Ev.destroyObj id ∈
          (drainRemoves (drainAdds s.objects s.toAdd).1 s.toRemove).2 := by
        rw [← hcontra, ← hei]
        exact he
      have hpos : 0 < cntDestroy
          (drainRemoves (drainAdds s.objects s.toAdd).1 s.toRemove).2 id := by
        rw [cntDestroy, List.countP_pos_iff]
        exact ⟨Ev.destroyObj id, hdmem, by simp⟩
      rw [hdcnt, hm1] at hpos
      by_cases hmem : id ∈ s.toRemove <;> simp [hmem] at hpos
    rw [hei]
    simp [touchesId, hii]
  have hU : ((Ev.levelUpdate delta ::
      (((drainRemoves (drainAdds s.objects s.toAdd).1 s.toRemove).1.filter
          (fun o => o.active)).map (fun o => Ev.updateObj o.id delta))).all
      fun e => !(touchesId id e)) = true := by
    rw [List.all_eq_true]
    intro e he
    rcases List.mem_cons.mp he with he | he
    · rw [he]
      simp [touchesId]
    · obtain ⟨o, hof, heo⟩ := List.mem_map.mp he
      have : o.id ≠ id :=
        (cntObj_eq_zero_iff _ _).mp hm2 o (List.mem_of_mem_filter hof)
      rw [← heo]
      simp [touchesId, this]
  rw [hA, hR, hU]
  rfl

theorem draw_no_destroy (s : LevelState) (id : String) :
    hasDestroy id (levelDrawFn s) = false := by
  apply hasDestroy_eq_false_of
  intro e he
  rcases List.mem_cons.mp he with he | he
  · rw [he]
    simp
  · obtain ⟨o, _, heo⟩ := List.mem_map.mp he
    rw [← heo]
    simp

theorem draw_cnts (s : LevelState) (id : String) :
    cntCreate (levelDrawFn s) id = 0 ∧ cntDestroy (levelDrawFn s) id = 0 := by
  constructor
  · apply cntCreate_eq_zero_of
    intro e he
    rcases List.mem_cons.mp he with he | he
    · rw [he]
      simp
    · obtain ⟨o, _, heo⟩ := List.mem_map.mp he
      rw [← heo]
      simp
  · apply cntDestroy_eq_zero_of
    intro e he
    rcases List.mem_cons.mp he with he | he
    · rw [he]
      simp
    · obtain ⟨o, _, heo⟩ := List.mem_map.mp he
      rw [← heo]
      simp

theorem draw_untouched (s : LevelState) (id : String)
    (hobj : cntObj s.objects id = 0) :
    ((levelDrawFn s).all fun e => !(touchesId id e)) = true := by
  rw [List.all_eq_true]
  intro e he
  rcases List.mem_cons.mp he with he | he
  · rw [he]
    simp [touchesId]
  · obtain ⟨o, hom, heo⟩ := List.mem_map.mp he
    have homem : o ∈ s.objects := by
      have h1 : o ∈ s.objects.filter (fun o => o.visible) :=
        (sortDepth_perm _).mem_iff.mp hom
      exact List.mem_of_mem_filter h1
    have : o.id ≠ id := (cntObj_eq_zero_iff _ _).mp hobj o homem
    rw [← heo]
    simp [touchesId, this]

theorem destroyLevel_cnts (s : LevelState) (id : String) :
    cntCreate (levelDestroyFn s).2 id = 0 ∧
    cntDestroy (levelDestroyFn s).2 id = cntObj s.objects id := by
  constructor
  · apply cntCreate_eq_zero_of
    intro e he
    rcases List.mem_append.mp he with he | he
    · obtain ⟨o, _, heo⟩ := List.mem_map.mp he
      rw [← heo]
      simp
    · rcases List.mem_cons.mp he with he | he
      · rw [he]
        simp
      · simp at he
  · have h2 : (levelDestroyFn s).2 =
        s.objects.map (fun o => Ev.destroyObj o.id) ++ [Ev.levelDestroy] := rfl
    rw [h2, cntDestroy_append, cntDestroy_map_destroy]
    have h0 : cntDestroy [Ev.levelDestroy] id = 0 := by
      apply cntDestroy_eq_zero_of
      intro e he
      rcases List.mem_cons.mp he with he | he
      · rw [he]
        simp
      · simp at he
    rw [h0]
    omega

theorem destroyLevel_clean (s : LevelState) (id : String)
    (h : cntObj s.objects id ≤ 1) :
    cleanFrom id false (levelDestroyFn s).2 = true := by
  apply cleanFrom_of_destroy_once
  · intro e he
    rcases List.mem_append.mp he with he | he
    · obtain ⟨o, _, heo⟩ := List.mem_map.mp he
      by_cases ho : o.id = id
      · right
        rw [← heo, ho]
      · left
        rw [← heo]
        simp [touchesId, ho]
    · rcases List.mem_cons.mp he with he | he
      · left
        rw [he]
        rfl
      · simp at he
  · rw [(destroyLevel_cnts s id).2]
    exact h

theorem destroyLevel_untouched (s : LevelState) (id : String)
    (hobj : cntObj s.objects id = 0) :
    ((levelDestroyFn s).2.all fun e => !(touchesId id e)) = true := by
  rw [List.all_eq_true]
  intro e he
  rcases List.mem_append.mp he with he | he
  · obtain ⟨o, hom, heo⟩ := List.mem_map.mp he
    have : o.id ≠ id := (cntObj_eq_zero_iff _ _).mp hobj o hom
    rw [← heo]
    simp [touchesId, this]
  · rcases List.mem_cons.mp he with he | he
    · rw [he]
      simp [touchesId]
    · simp at he

theorem hasDestroy_cnt_pos (id : String) (E : List Ev)
    (h : hasDestroy id E = true) : 0 < cntDestroy E id := by
  obtain ⟨e, hemem, hee⟩ := List.any_eq_true.mp h
  rw [cntDestroy, List.countP_pos_iff]
  exact ⟨e, hemem, hee⟩

/-- Lifetime accounting invariant for a fixed object id: pending adds plus
fired creation hooks equal the add-requests seen so far; live entries plus
fired teardown hooks equal the fired creation hooks; and the event history
never mentions the id after its teardown. -/
def lifeInv (id : String) (s : LevelState) (E : List Ev) (k : Nat) : Prop :=
  cntObj s.toAdd id + cntCreate E id = k ∧
  cntObj s.objects id + cntDestroy E id = cntCreate E id ∧
  cleanFrom id false E = true


theorem cntObj_nil (id : String) : cntObj [] id = 0 := rfl

theorem cntObj_append_one (l : List GameObj) (o : GameObj) (id : String) :
    cntObj (l ++ [o]) id = cntObj l id + (if o.id = id then 1 else 0) := by
  simp only [cntObj, List.countP_append, List.countP_cons, List.countP_nil]
  by_cases ho : o.id = id <;> simp [ho]

theorem addsFor_cons_add (id : String) (o : GameObj) (rest : List Act) :
    addsFor id (Act.request (Req.add o) :: rest) =
      addsFor id rest + (if o.id = id then 1 else 0) := by
  rw [addsFor, List.countP_cons, ← addsFor]
  by_cases ho : o.id = id <;> simp [ho]

theorem addsFor_cons_other (id : String) (a : Act) (rest : List Act)
    (h : ∀ o, a ≠ Act.request (Req.add o)) :
    addsFor id (a :: rest) = addsFor id rest := by
  rw [addsFor, List.countP_cons, ← addsFor]
  cases a with
  | request r =>
    cases r with
    | add o => exact absurd rfl (h o)
    | remove i => simp
  | frame d => simp
  | draw => simp
  | destroyLevel => simp

theorem runActs_inv (id : String) (acts : List Act) :
    ∀ s E k, lifeInv id s E k → k + addsFor id acts ≤ 1 →
    lifeInv id (acts.foldl stepAct (s, E)).1 (acts.foldl stepAct (s, E)).2
      (k + addsFor id acts) := by
  induction acts with
  | nil =>
    intro s E k h _
    simpa [addsFor] using h
  | cons a rest ih =>
    intro s E k h hk
    rw [List.foldl_cons]
    obtain ⟨h1, h2, h3⟩ := h
    cases a with
    | request r =>
      cases r with
      | add o =>
        have hstep : stepAct (s, E) (Act.request (Req.add o)) =
            ({ s with toAdd := s.toAdd ++ [o] }, E) := rfl
        rw [hstep, addsFor_cons_add] at *
        have hinv : lifeInv id { s with toAdd := s.toAdd ++ [o] } E
            (k + (if o.id = id then 1 else 0)) := by
          refine ⟨?_, h2, h3⟩
          rw [cntObj_append_one]
          omega
        have hk2 : (k + (if o.id = id then 1 else 0)) + addsFor id rest ≤ 1 := by
          omega
        have hgoal := ih _ _ _ hinv hk2
        have hkk : k + (addsFor id rest + (if o.id = id then 1 else 0)) =
            (k + (if o.id = id then 1 else 0)) + addsFor id rest := by
          omega
        rw [hkk]
        exact hgoal
      | remove i =>
        have hstep : stepAct (s, E) (Act.request (Req.remove i)) =
            ({ s with toRemove := setAdd s.toRemove i }, E) := rfl
        have ha : addsFor id (Act.request (Req.remove i) :: rest) =
            addsFor id rest := addsFor_cons_other id _ rest (by intro o hc; cases hc)
        rw [hstep, ha] at *
        exact ih _ _ _ ⟨h1, h2, h3⟩ hk
    | frame delta =>
      have hstep : stepAct (s, E) (Act.frame delta) =
          ((levelUpdateFn s delta).1, E ++ (levelUpdateFn s delta).2) := rfl
      have ha : addsFor id (Act.frame delta :: rest) = addsFor id rest :=
        addsFor_cons_other id _ rest (by intro o hc; cases hc)
      rw [hstep, ha] at *
      have hsum : cntObj s.objects id + cntObj s.toAdd id ≤ 1 := by omega
      obtain ⟨hfc, hfd, hfo⟩ := frame_cnts s delta id hsum
      have hclean2 : cleanFrom id false (E ++ (levelUpdateFn s delta).2) = true := by
        rw [cleanFrom_append, h3]
        simp only [Bool.true_and, Bool.false_or]
        cases hdE : hasDestroy id E with
        | false => exact frame_cleanFrom s delta id hsum
        | true =>
          have hpos := hasDestroy_cnt_pos id E hdE
          have hobj0 : cntObj s.objects id = 0 := by omega
          have hadd0 : cntObj s.toAdd id = 0 := by omega
          rw [cleanFrom_true_iff]
          exact frame_untouched s delta id hobj0 hadd0
      have hinv : lifeInv id (levelUpdateFn s delta).1
          (E ++ (levelUpdateFn s delta).2) k := by
        refine ⟨?_, ?_, hclean2⟩
        · have htoAdd : (levelUpdateFn s delta).1.toAdd = [] := rfl
          rw [htoAdd, cntCreate_append, hfc, cntObj_nil]
          omega
        · rw [cntCreate_append, cntDestroy_append, hfc, hfd, hfo]
          by_cases hmem : id ∈ s.toRemove
          · simp only [hmem, if_true]
            omega
          · simp only [hmem, if_false]
            omega
      exact ih _ _ _ hinv hk
    | draw =>
      have hstep : stepAct (s, E) Act.draw = (s, E ++ levelDrawFn s) := rfl
      have ha : addsFor id (Act.draw :: rest) = addsFor id rest :=
        addsFor_cons_other id _ rest (by intro o hc; cases hc)
      rw [hstep, ha] at *
      obtain ⟨hdc, hdd⟩ := draw_cnts s id
      have hclean2 : cleanFrom id false (E ++ levelDrawFn s) = true := by
        rw [cleanFrom_append, h3]
        simp only [Bool.true_and, Bool.false_or]
        cases hdE : hasDestroy id E with
        | false => exact cleanFrom_false_of_no_destroy _ _ (draw_no_destroy s id)
        | true =>
          have hpos := hasDestroy_cnt_pos id E hdE
          have hobj0 : cntObj s.objects id = 0 := by omega
          rw [cleanFrom_true_iff]
          exact draw_untouched s id hobj0
      have hinv : lifeInv id s (E ++ levelDrawFn s) k := by
        refine ⟨?_, ?_, hclean2⟩
        · rw [cntCreate_append, hdc]
          omega
        · rw [cntCreate_append, cntDestroy_append, hdc, hdd]
          omega
      exact ih _ _ _ hinv hk
    | destroyLevel =>
      have hstep : stepAct (s, E) Act.destroyLevel =
          ((levelDestroyFn s).1, E ++ (levelDestroyFn s).2) := rfl
      have ha : addsFor id (Act.destroyLevel :: rest) = addsFor id rest :=
        addsFor_cons_other id _ rest (by intro o hc; cases hc)
      rw [hstep, ha] at *
      obtain ⟨hxc, hxd⟩ := destroyLevel_cnts s id
      have hobjle : cntObj s.objects id ≤ 1 := by omega
      have hclean2 : cleanFrom id false (E ++ (levelDestroyFn s).2) = true := by
        rw [cleanFrom_append, h3]
        simp only [Bool.true_and, Bool.false_or]
        cases hdE : hasDestroy id E with
        | false => exact destroyLevel_clean s id hobjle
        | true =>
          have hpos := hasDestroy_cnt_pos id E hdE
          have hobj0 : cntObj s.objects id = 0 := by omega
          rw [cleanFrom_true_iff]
          exact destroyLevel_untouched s id hobj0
      have hinv : lifeInv id (levelDestroyFn s).1 (E ++ (levelDestroyFn s).2) k := by
        have hto : (levelDestroyFn s).1.toAdd = s.toAdd := rfl
        have hob : (levelDestroyFn s).1.objects = [] := rfl
        refine ⟨?_, ?_, hclean2⟩
        · rw [hto, cntCreate_append, hxc]
          omega
        · rw [hob, cntCreate_append, cntDestroy_append, hxc, hxd, cntObj_nil]
          omega
      exact ih _ _ _ hinv hk

theorem cleanFrom_split (id : String) : ∀ (pre post : List Ev),
    cleanFrom id false (pre ++ Ev.destroyObj id :: post) = true →
    ∀ e ∈ post, touchesId id e = false := by
  intro pre
  induction pre with
  | nil =>
    intro post h e he
    have h2 : cleanFrom id true post = true := by
      simpa [cleanFrom] using h
    rw [cleanFrom_true_iff, List.all_eq_true] at h2
    have := h2 e he
    simpa using this
  | cons p pre2 ih =>
    intro post h e he
    by_cases hp : p = Ev.destroyObj id
    · subst hp
      have h2 : cleanFrom id true (pre2 ++ Ev.destroyObj id :: post) = true := by
        simpa [cleanFrom] using h
      rw [cleanFrom_true_iff, List.all_eq_true] at h2
      have := h2 (Ev.destroyObj id)
        (List.mem_append_right _ (List.mem_cons_self _ _))
      simp [touchesId] at this
    · have hbe : (p == Ev.destroyObj id) = false := by simp [hp]
      have h2 : cleanFrom id false (pre2 ++ Ev.destroyObj id :: post) = true := by
        simpa [cleanFrom, hbe] using h
      exact ih post h2 e he

theorem addsFor_ending (id : String) (acts : List Act) :
    addsFor id (acts ++ [Act.destroyLevel]) = addsFor id acts := by
  simp [addsFor, List.countP_append, List.countP_cons]

/-- Claim C3: for every entity that enters a level's live set, under at
most one add-request for its id over the level's lifetime, the teardown
hook fires at most once over any run, exactly once when the run ends with
the level's own destruction and the entity was created, and after a
teardown event the entity never again receives an update or draw call. -/
theorem claim_C3_teardown_once (acts : List Act) (id : String)
    (h : addsFor id acts ≤ 1) :
    cntDestroy (runActs acts).2 id ≤ 1 ∧
    (Ev.create id ∈ (runActs (acts ++ [Act.destroyLevel])).2 →
      cntDestroy (runActs (acts ++ [Act.destroyLevel])).2 id = 1) ∧
    (∀ pre post, (runActs acts).2 = pre ++ Ev.destroyObj id :: post →
      ∀ e ∈ post, (∀ d, e ≠ Ev.updateObj id d) ∧ e ≠ Ev.drawObj id) := by
  have hinit : lifeInv id initLevel [] 0 := by
    refine ⟨?_, ?_, rfl⟩ <;> rfl
  have hrun := runActs_inv id acts initLevel [] 0 hinit (by simpa using h)
  obtain ⟨g1, g2, g3⟩ := hrun
  refine ⟨?_, ?_, ?_⟩
  · have heq0 : (runActs acts).2 = (acts.foldl stepAct (initLevel, [])).2 := rfl
    rw [heq0]
    omega
  · intro hmem
    have hrun2 := runActs_inv id (acts ++ [Act.destroyLevel]) initLevel [] 0 hinit
      (by rw [addsFor_ending]; simpa using h)
    obtain ⟨j1, j2, j3⟩ := hrun2
    have hobj : ((acts ++ [Act.destroyLevel]).foldl stepAct
        (initLevel, [])).1.objects = [] := by
      rw [List.foldl_append, List.foldl_cons, List.foldl_nil]
      rfl
    rw [hobj, cntObj_nil] at j2
    have hcpos : 0 < cntCreate (runActs (acts ++ [Act.destroyLevel])).2 id := by
      rw [cntCreate, List.countP_pos_iff]
      exact ⟨Ev.create id, hmem, by simp⟩
    have heq : runActs (acts ++ [Act.destroyLevel]) =
        (acts ++ [Act.destroyLevel]).foldl stepAct (initLevel, []) := rfl
    rw [heq] at hcpos ⊢
    rw [addsFor_ending] at j1
    omega
  · intro pre post hsplit e he
    have hclean := g3
    rw [show (acts.foldl stepAct (initLevel, [])).2 = (runActs acts).2 from rfl,
      hsplit] at hclean
    have ht := cleanFrom_split id pre post hclean e he
    constructor
    · intro d hcontra
      rw [hcontra] at ht
      simp [touchesId] at ht
    · intro hcontra
      rw [hcontra] at ht
      simp [touchesId] at ht

/-- A concrete active, visible object with id `"y"`. -/
def objY : GameObj :=
  { id := "y", active := true, visible := true, depth := 0, x := 0, y := 0 }

/-- A concrete run: add `objY`, run a frame (it is created and updated),
request its removal, run a frame (teardown), then keep running frames and
draw passes and finally destroy the level. -/
def c3Acts : List Act :=
  [Act.request (Req.add objY), Act.frame 1, Act.request (Req.remove "y"),
    Act.frame 1, Act.frame 1, Act.draw]

theorem claim_C3_witness :
    addsFor "y" c3Acts ≤ 1 ∧ cntDestroy (runActs c3Acts).2 "y" ≤ 1 :=
  ⟨by decide, (claim_C3_teardown_once c3Acts "y" (by decide)).1⟩

/-! ### Engine: level loading (Engine.ts lines 145–181) and the game loop
(Engine.ts lines 220–258). -/

/-- Outcome of the awaited `_init()` call (preload then create) of the new
level, which the source wraps in try/catch. -/
inductive LoadOutcome where
  | ok
  | preloadThrows
  | createThrows
deriving DecidableEq, Repr

/-- Engine state relevant to level loading (Engine.ts lines 40–45).
`currentInited` mirrors the level's `_initialized` flag (Level.ts line
134), set only after `create()` returns normally. -/
structure EngineState where
  levels : List String
  currentLevel : Option String
  currentLevelKey : String
  currentInited : Bool
  isLoading : Bool
  loadingProgress : ℚ
  loadingMessage : String
deriving DecidableEq, Repr

/-- Observable steps of `BasedEngine.loadLevel`, in source order. -/
inductive EngEv where
  | errorLevelNotFound (key : String)
  | startLoading
  | destroyLevel (key : String)
  | constructed (key : String)
  | preloadStart (key : String)
  | preloadDone (key : String)
  | created (key : String)
  | resized (key : String)
  | errorLogged
  | loadingCleared
deriving DecidableEq, Repr

/-- `BasedEngine.loadLevel` (Engine.ts lines 145–173): missing key logs and
returns; otherwise set the loading flag/message/progress, synchronously
destroy the current level if any, construct the new level, then inside
try/catch await preload, call create and trigger resize — an exception is
caught and logged — and finally clear the loading flag. -/
def loadLevel (s : EngineState) (key : String) (outcome : LoadOutcome) :
    EngineState × List EngEv :=
  if s.levels.contains key = false then
    (s, [EngEv.errorLevelNotFound key])
  else
    let destroyEvs := match s.currentLevel with
      | some old => [EngEv.destroyLevel old]
      | none => []
    let initEvs := match outcome with
      | .ok => [EngEv.preloadStart key, EngEv.preloadDone key,
          EngEv.created key, EngEv.resized key]
      | .preloadThrows => [EngEv.preloadStart key, EngEv.errorLogged]
      | .createThrows => [EngEv.preloadStart key, EngEv.preloadDone key,
          EngEv.errorLogged]
    let inited : Bool := match outcome with
      | .ok => true
      | .preloadThrows => false
      | .createThrows => false
    ({ s with
        isLoading := false
        loadingMessage := "Loading..."
        loadingProgress := 0
        currentLevel := some key
        currentLevelKey := key
        currentInited := inited },
      EngEv.startLoading :: destroyEvs ++ EngEv.constructed key :: initEvs
        ++ [EngEv.loadingCleared])

/-- `BasedEngine.setLoadingProgress` (Engine.ts lines 178–181): stores the
clamped fraction unconditionally; the message is replaced only when a
truthy (non-empty) message is passed. -/
def setLoadingProgress (s : EngineState) (progress : ℚ)
    (message : Option String) : EngineState :=
  { s with
    loadingProgress := max 0 (min 1 progress),
    loadingMessage :=
      match message with
      | some m => if m = "" then s.loadingMessage else m
      | none => s.loadingMessage }

/-- Claim C5: for a registered key with a level active, `loadLevel` with a
successful init emits, in order: loading flag set, outgoing level destroy
(strictly before the incoming level is constructed or its preload starts),
construction, preload, create, resize, loading flag cleared — and for every
outcome the first four steps are the same; afterwards the new level is
current and the loading flag is clear. -/
theorem claim_C5_loadLevel_order (s : EngineState) (key old : String)
    (hreg : s.levels.contains key = true)
    (hcur : s.currentLevel = some old) :
    (loadLevel s key LoadOutcome.ok).2 =
      [EngEv.startLoading, EngEv.destroyLevel old, EngEv.constructed key,
        EngEv.preloadStart key, EngEv.preloadDone key, EngEv.created key,
        EngEv.resized key, EngEv.loadingCleared] ∧
    (∀ outcome, (loadLevel s key outcome).2.take 4 =
      [EngEv.startLoading, EngEv.destroyLevel old, EngEv.constructed key,
        EngEv.preloadStart key]) ∧
    (loadLevel s key LoadOutcome.ok).1.isLoading = false ∧
    (loadLevel s key LoadOutcome.ok).1.currentLevel = some key ∧
    (loadLevel s key LoadOutcome.ok).1.currentLevelKey = key := by
  have hmem : key ∈ s.levels := by simpa using hreg
  refine ⟨?_, ?_, ?_, ?_, ?_⟩
  · simp [loadLevel, hmem, hcur]
  · intro outcome
    cases outcome <;> simp [loadLevel, hmem, hcur]
  · simp [loadLevel, hmem]
  · simp [loadLevel, hmem]
  · simp [loadLevel, hmem]

/-- A concrete engine state with two registered levels, level "a" active. -/
def engA : EngineState :=
  { levels := ["a", "b"], currentLevel := some "a", currentLevelKey := "a",
    currentInited := true, isLoading := false, loadingProgress := 1,
    loadingMessage := "" }

/-- Witness for claim C5 at a concrete engine state. -/
theorem claim_C5_witness :
    engA.levels.contains "b" = true ∧ engA.currentLevel = some "a" ∧
    (loadLevel engA "b" LoadOutcome.ok).2 =
      [EngEv.startLoading, EngEv.destroyLevel "a", EngEv.constructed "b",
        EngEv.preloadStart "b", EngEv.preloadDone "b", EngEv.created "b",
        EngEv.resized "b", EngEv.loadingCleared] :=
  ⟨by decide, by decide,
    (claim_C5_loadLevel_order engA "b" "a" (by decide) (by decide)).1⟩

/-- Claim C6: if preload or create throws during `loadLevel`, the exception
is caught (an error is logged, `loadLevel` returns normally), the loading
flag is still cleared, and the partially initialized new level remains the
engine's current level — no rollback: the create-completed event never
fired and the level's initialized flag is false. -/
theorem claim_C6_load_error_contained (s : EngineState) (key : String)
    (outcome : LoadOutcome) (hreg : s.levels.contains key = true)
    (hfail : outcome ≠ LoadOutcome.ok) :
    EngEv.errorLogged ∈ (loadLevel s key outcome).2 ∧
    (loadLevel s key outcome).1.isLoading = false ∧
    (loadLevel s key outcome).1.currentLevel = some key ∧
    (loadLevel s key outcome).1.currentInited = false ∧
    EngEv.created key ∉ (loadLevel s key outcome).2 := by
  have hmem : key ∈ s.levels := by simpa using hreg
  cases outcome with
  | ok => exact absurd rfl hfail
  | preloadThrows =>
    refine ⟨?_, ?_, ?_, ?_, ?_⟩ <;>
      cases hcur : s.currentLevel <;> simp [loadLevel, hmem, hcur]
  | createThrows =>
    refine ⟨?_, ?_, ?_, ?_, ?_⟩ <;>
      cases hcur : s.currentLevel <;> simp [loadLevel, hmem, hcur]

/-- Witness for claim C6 at a concrete engine state. -/
theorem claim_C6_witness :
    engA.levels.contains "b" = true ∧ LoadOutcome.preloadThrows ≠ LoadOutcome.ok ∧
    (loadLevel engA "b" LoadOutcome.preloadThrows).1.currentLevel = some "b" :=
  ⟨by decide, by decide,
    (claim_C6_load_error_contained engA "b" LoadOutcome.preloadThrows
      (by decide) (by decide)).2.2.1⟩

/-- Claim C9 (amended): `setLoadingProgress` stores the fraction clamped to
[0,1] (−0.5 and 1.7 store 0 and 1), and does so unconditionally — the
store happens whether or not the loading flag is set, so a call after
loading completes still changes the stored progress (it merely has no
rendering effect outside the loading screen). All other engine fields
except the loading message are untouched. -/
theorem claim_C9_progress_clamped (s : EngineState) (p : ℚ)
    (msg : Option String) :
    (setLoadingProgress s p msg).loadingProgress = max 0 (min 1 p) ∧
    (setLoadingProgress s (-(1/2)) msg).loadingProgress = 0 ∧
    (setLoadingProgress s (17/10) msg).loadingProgress = 1 ∧
    (setLoadingProgress s p msg).isLoading = s.isLoading ∧
    (setLoadingProgress s p msg).currentLevel = s.currentLevel ∧
    (setLoadingProgress s p msg).levels = s.levels := by
  refine ⟨rfl, ?_, ?_, rfl, rfl, rfl⟩
  · show max 0 (min 1 (-(1/2) : ℚ)) = 0
    norm_num
  · show max 0 (min 1 ((17/10) : ℚ)) = 1
    norm_num

/-- An idle engine state: loading completed (flag cleared), progress 0. -/
def engIdle : EngineState :=
  { levels := [], currentLevel := none, currentLevelKey := "",
    currentInited := false, isLoading := false, loadingProgress := 0,
    loadingMessage := "" }

/-- Counterexample to claim C9 as stated: with the loading flag cleared,
`setLoadingProgress` still changes the engine's state — the stored
progress becomes 7/10, so the call is not a no-op after loading
completes. -/
theorem claim_C9_counterexample :
    engIdle.isLoading = false ∧
    (setLoadingProgress engIdle (7/10) none).loadingProgress = 7/10 ∧
    setLoadingProgress engIdle (7/10) none ≠ engIdle := by
  refine ⟨rfl, ?_, ?_⟩
  · show max 0 (min 1 ((7/10) : ℚ)) = 7/10
    norm_num
  · intro hc
    have h2 := congrArg EngineState.loadingProgress hc
    have h3 : max 0 (min 1 ((7/10) : ℚ)) = 0 := h2
    norm_num at h3

/-! ### The game loop tick (Engine.ts lines 220–258). -/

/-- Engine timing state used by `_gameLoop`. -/
structure LoopState where
  running : Bool
  lastTime : ℚ
  delta : ℚ
  time : ℚ
  frameCount : Nat
  fpsTime : ℚ
  fps : Nat
  isLoading : Bool
  hasLevel : Bool
deriving DecidableEq, Repr

/-- The update calls a tick makes, with the delta passed to each. -/
inductive TickEv where
  | cameraUpdate (delta : ℚ)
  | levelTick (delta : ℚ)
deriving DecidableEq, Repr

/-- `BasedEngine._gameLoop` (Engine.ts lines 220–248) together with
`_update` (lines 250–258): if not running, return; else compute the delta
as elapsed milliseconds over 1000 capped at 0.1, advance the clock and the
frames-per-second counter, then update the camera and — when a level is
current and not loading — the level, each with that delta. -/
def gameLoopTick (s : LoopState) (currentTime : ℚ) : LoopState × List TickEv :=
  if s.running = false then (s, [])
  else
    let delta := min ((currentTime - s.lastTime) / 1000) (1/10)
    let fc := s.frameCount + 1
    let ft := s.fpsTime + delta
    let s2 :=
      if 1 ≤ ft then
        { s with
            lastTime := currentTime
            delta := delta
            time := s.time + delta
            fps := fc
            frameCount := 0
            fpsTime := 0 }
      else
        { s with
            lastTime := currentTime
            delta := delta
            time := s.time + delta
            frameCount := fc
            fpsTime := ft }
    (s2, TickEv.cameraUpdate delta ::
      (if s.hasLevel && !s.isLoading then [TickEv.levelTick delta] else []))

theorem levelUpdateFn_update_delta (ls : LevelState) (delta : ℚ) (i : String)
    (d : ℚ) (h : Ev.updateObj i d ∈ (levelUpdateFn ls delta).2) : d = delta := by
  have hEv : (levelUpdateFn ls delta).2 =
      (drainAdds ls.objects ls.toAdd).2 ++
        (drainRemoves (drainAdds ls.objects ls.toAdd).1 ls.toRemove).2 ++
          Ev.levelUpdate delta ::
            (((drainRemoves (drainAdds ls.objects ls.toAdd).1 ls.toRemove).1.filter
                (fun o => o.active)).map (fun o => Ev.updateObj o.id delta)) := rfl
  rw [hEv] at h
  rcases List.mem_append.mp h with hAR | hU
  · rcases List.mem_append.mp hAR with hA | hR
    · rw [drainAdds_events] at hA
      simp at hA
    · obtain ⟨j, hj, _⟩ := drainRemoves_events _ _ _ hR
      simp at hj
  · rcases List.mem_cons.mp hU with h1 | h1
    · exact absurd h1 (by simp)
    · obtain ⟨o, _, heo⟩ := List.mem_map.mp h1
      injection heo with e1 e2
      exact e2.symm

/-- Claim C8: every tick of the game loop passes, to the camera update, the
level update and (through the level) every entity update hook, a delta
equal to the elapsed wall-clock milliseconds since the previous tick
divided by 1000 and capped at 0.1 — in particular a 5-second gap yields
exactly 0.1. -/
theorem claim_C8_delta_capped (s : LoopState) (t : ℚ) (hrun : s.running = true) :
    (gameLoopTick s t).1.delta = min ((t - s.lastTime) / 1000) (1/10) ∧
    (∀ d, TickEv.cameraUpdate d ∈ (gameLoopTick s t).2 →
      d = min ((t - s.lastTime) / 1000) (1/10)) ∧
    (∀ d, TickEv.levelTick d ∈ (gameLoopTick s t).2 →
      d = min ((t - s.lastTime) / 1000) (1/10)) ∧
    (t - s.lastTime = 5000 → (gameLoopTick s t).1.delta = 1/10) ∧
    (∀ (ls : LevelState) (delta : ℚ) (i : String) (d : ℚ),
      Ev.updateObj i d ∈ (levelUpdateFn ls delta).2 → d = delta) := by
  have hne : (s.running = false) = False := by simp [hrun]
  have hdelta : (gameLoopTick s t).1.delta =
      min ((t - s.lastTime) / 1000) (1/10) := by
    rw [gameLoopTick]
    simp only [hne, if_false]
    by_cases hf : 1 ≤ s.fpsTime + min ((t - s.lastTime) / 1000) (1/10)
    · rw [if_pos hf]
    · rw [if_neg hf]
  refine ⟨hdelta, ?_, ?_, ?_, levelUpdateFn_update_delta⟩
  · intro d hd
    rw [gameLoopTick] at hd
    simp only [hne, if_false] at hd
    by_cases hlv : s.hasLevel && !s.isLoading <;>
      simp [hlv] at hd <;> rw [hd] <;> norm_num
  · intro d hd
    rw [gameLoopTick] at hd
    simp only [hne, if_false] at hd
    by_cases hlv : s.hasLevel && !s.isLoading <;>
      simp [hlv] at hd <;> rw [hd] <;> norm_num
  · intro hgap
    rw [hdelta, hgap]
    have h5 : (5000 : ℚ) / 1000 = 5 := by norm_num
    rw [h5]
    rw [min_def]
    norm_num

/-- Witness for claim C8 at a concrete loop state: a 5-second stall. -/
def loopA : LoopState :=
  { running := true, lastTime := 100, delta := 0, time := 7,
    frameCount := 3, fpsTime := 0, fps := 60, isLoading := false,
    hasLevel := true }

theorem claim_C8_witness :
    loopA.running = true ∧ (gameLoopTick loopA 5100).1.delta = 1/10 :=
  ⟨rfl, (claim_C8_delta_capped loopA 5100 rfl).2.2.2.1 (by norm_num [loopA])⟩

/-! ### Camera (Camera.ts) and the numeric helpers it uses (math.ts). -/

namespace num

/-- `num.clamp` (math.ts lines 330–332). -/
def clamp (value lo hi : ℚ) : ℚ := max lo (min hi value)

/-- `num.approach` (math.ts lines 350–355). -/
def approach (current target maxDelta : ℚ) : ℚ :=
  if current < target then min (current + maxDelta) target
  else max (current - maxDelta) target

end num

/-- The `Camera` state (Camera.ts lines 10–28). The follow target is a live
object reference in the source; here `following` records whether one is
set, and the followed position is supplied to each update as an input. -/
structure CameraState where
  x : ℚ
  y : ℚ
  zoom : ℚ
  rotation : ℚ
  targetX : ℚ
  targetY : ℚ
  targetZoom : ℚ
  following : Bool
  followSpeed : ℚ
  bounds : Option (ℚ × ℚ)
  shakeIntensity : ℚ
  shakeDuration : ℚ
  shakeTime : ℚ
  shakeOffsetX : ℚ
  shakeOffsetY : ℚ
  screenWidth : ℚ
  screenHeight : ℚ
deriving DecidableEq, Repr

/-- The camera's initial state (field initializers of Camera.ts). -/
def initCamera : CameraState :=
  { x := 0, y := 0, zoom := 1, rotation := 0, targetX := 0, targetY := 0,
    targetZoom := 1, following := false, followSpeed := 5, bounds := none,
    shakeIntensity := 0, shakeDuration := 0, shakeTime := 0,
    shakeOffsetX := 0, shakeOffsetY := 0, screenWidth := 800,
    screenHeight := 600 }

/-- `Camera.setScreenSize` (Camera.ts lines 33–36). -/
def setScreenSize (c : CameraState) (w h : ℚ) : CameraState :=
  { c with screenWidth := w, screenHeight := h }

/-- `Camera.follow` (Camera.ts lines 42–45): records the target reference
and speed. -/
def followCam (c : CameraState) (speed : ℚ) : CameraState :=
  { c with following := true, followSpeed := speed }

/-- `Camera.stopFollowing` (Camera.ts lines 50–52). -/
def stopFollowingCam (c : CameraState) : CameraState :=
  { c with following := false }

/-- `Camera.setPosition` (Camera.ts lines 57–62). -/
def setPositionCam (c : CameraState) (px py : ℚ) : CameraState :=
  { c with x := px, y := py, targetX := px, targetY := py }

/-- `Camera.setTarget` (Camera.ts lines 67–70). -/
def setTargetCam (c : CameraState) (px py : ℚ) : CameraState :=
  { c with targetX := px, targetY := py }

/-- `Camera.setZoom` (Camera.ts lines 75–77): `Math.max(0.1, zoom)`. -/
def setZoom (c : CameraState) (z : ℚ) : CameraState :=
  { c with targetZoom := max (1/10) z }

/-- `Camera.setZoomImmediate` (Camera.ts lines 82–85). -/
def setZoomImmediate (c : CameraState) (z : ℚ) : CameraState :=
  { c with zoom := max (1/10) z, targetZoom := max (1/10) z }

/-- `Camera.setBounds` (Camera.ts lines 90–92). -/
def setBoundsCam (c : CameraState) (w h : ℚ) : CameraState :=
  { c with bounds := some (w, h) }

/-- `Camera.clearBounds` (Camera.ts lines 97–99). -/
def clearBoundsCam (c : CameraState) : CameraState :=
  { c with bounds := none }

/-- `Camera.shake` (Camera.ts lines 104–108). -/
def shakeCam (c : CameraState) (intensity duration : ℚ) : CameraState :=
  { c with
      shakeIntensity := intensity
      shakeDuration := duration
      shakeTime := 0 }

/-- `Camera.update` (Camera.ts lines 113–160). `r1`, `r2` stand for the two
`Math.random()` draws of the shake update; `fx`, `fy` are the followed
object's current position (read live each frame when following). -/
def cameraUpdate (c : CameraState) (delta r1 r2 fx fy : ℚ) : CameraState :=
  let c1 := if c.following then { c with targetX := fx, targetY := fy } else c
  let moveSpeed := c1.followSpeed * delta
  let x1 := num.approach c1.x c1.targetX (|c1.targetX - c1.x| * moveSpeed)
  let y1 := num.approach c1.y c1.targetY (|c1.targetY - c1.y| * moveSpeed)
  let z1 := num.approach c1.zoom c1.targetZoom (|c1.targetZoom - c1.zoom| * 5 * delta)
  let xy2 :=
    match c1.bounds with
    | none => (x1, y1)
    | some (bw, bh) =>
      let halfW := c1.screenWidth / 2 / z1
      let halfH := c1.screenHeight / 2 / z1
      let x2 := if bw ≤ halfW * 2 then bw / 2 else num.clamp x1 halfW (bw - halfW)
      let y2 := if bh ≤ halfH * 2 then bh / 2 else num.clamp y1 halfH (bh - halfH)
      (x2, y2)
  let shk :=
    if c1.shakeTime < c1.shakeDuration then
      let st := c1.shakeTime + delta * 1000
      let progress := 1 - st / c1.shakeDuration
      let intensity := c1.shakeIntensity * progress
      (st, (r1 * 2 - 1) * intensity, (r2 * 2 - 1) * intensity)
    else
      (c1.shakeTime, (0 : ℚ), (0 : ℚ))
  { c1 with
      x := xy2.1
      y := xy2.2
      zoom := z1
      shakeTime := shk.1
      shakeOffsetX := shk.2.1
      shakeOffsetY := shk.2.2 }

/-- `Camera.position` (Camera.ts lines 165–170): position plus shake. -/
def cameraPos (c : CameraState) : ℚ × ℚ :=
  (c.x + c.shakeOffsetX, c.y + c.shakeOffsetY)

/-- `Camera.worldToScreen` (Camera.ts lines 175–181). -/
def worldToScreen (c : CameraState) (p : ℚ × ℚ) : ℚ × ℚ :=
  ((p.1 - (cameraPos c).1) * c.zoom + c.screenWidth / 2,
   (p.2 - (cameraPos c).2) * c.zoom + c.screenHeight / 2)

/-- `Camera.screenToWorld` (Camera.ts lines 186–192). -/
def screenToWorld (c : CameraState) (p : ℚ × ℚ) : ℚ × ℚ :=
  ((p.1 - c.screenWidth / 2) / c.zoom + (cameraPos c).1,
   (p.2 - c.screenHeight / 2) / c.zoom + (cameraPos c).2)

/-- Claim C7: with rotation 0, zero shake offset and any (nonzero) fixed
zoom, position and screen size, `worldToScreen` and `screenToWorld` are
mutual inverses — exact over rational arithmetic. -/
theorem claim_C7_camera_inverse (c : CameraState) (p q : ℚ × ℚ)
    (hrot : c.rotation = 0) (hsx : c.shakeOffsetX = 0)
    (hsy : c.shakeOffsetY = 0) (hz : c.zoom ≠ 0) :
    screenToWorld c (worldToScreen c p) = p ∧
    worldToScreen c (screenToWorld c q) = q := by
  obtain ⟨p1, p2⟩ := p
  obtain ⟨q1, q2⟩ := q
  constructor
  · simp only [worldToScreen, screenToWorld, cameraPos, hsx, hsy, Prod.mk.injEq]
    constructor <;> field_simp <;> ring
  · simp only [worldToScreen, screenToWorld, cameraPos, hsx, hsy, Prod.mk.injEq]
    constructor <;> field_simp <;> ring

/-- A concrete camera: moved, zoomed to 2, no rotation or shake. -/
def camB : CameraState := { initCamera with x := 5, y := -3, zoom := 2 }

/-- Witness for claim C7 at a concrete camera and point. -/
theorem claim_C7_witness :
    camB.rotation = 0 ∧ camB.shakeOffsetX = 0 ∧ camB.shakeOffsetY = 0 ∧
    camB.zoom ≠ 0 ∧
    screenToWorld camB (worldToScreen camB (11, 13)) = (11, 13) :=
  ⟨rfl, rfl, rfl, by decide,
    (claim_C7_camera_inverse camB (11, 13) (0, 0) rfl rfl rfl (by decide)).1⟩

/-- A public camera operation (the methods of Camera.ts), with the inputs
each call takes; `update` additionally carries the frame's two random
draws and the followed object's current position. -/
inductive CamOp where
  | screenSize (w h : ℚ)
  | follow (speed : ℚ)
  | stopFollow
  | position (px py : ℚ)
  | target (px py : ℚ)
  | zoomTo (z : ℚ)
  | zoomNow (z : ℚ)
  | boundsTo (w h : ℚ)
  | boundsClear
  | shake (i d : ℚ)
  | update (delta r1 r2 fx fy : ℚ)
deriving DecidableEq, Repr

/-- Dispatch a public camera operation. -/
def applyCamOp (c : CameraState) (op : CamOp) : CameraState :=
  match op with
  | .screenSize w h => setScreenSize c w h
  | .follow speed => followCam c speed
  | .stopFollow => stopFollowingCam c
  | .position px py => setPositionCam c px py
  | .target px py => setTargetCam c px py
  | .zoomTo z => setZoom c z
  | .zoomNow z => setZoomImmediate c z
  | .boundsTo w h => setBoundsCam c w h
  | .boundsClear => clearBoundsCam c
  | .shake i d => shakeCam c i d
  | .update delta r1 r2 fx fy => cameraUpdate c delta r1 r2 fx fy

/-- Run a camera from its initial state through a sequence of operations. -/
def runCam (ops : List CamOp) : CameraState :=
  ops.foldl applyCamOp initCamera

/-- Does this operation, if it is a per-frame update, carry a non-negative
delta? -/
def deltaOkOp (op : CamOp) : Bool :=
  match op with
  | .update delta _ _ _ _ => decide (0 ≤ delta)
  | _ => true

/-- Every per-frame update in the sequence has non-negative delta. -/
def deltasOk (ops : List CamOp) : Bool :=
  ops.all deltaOkOp

theorem approach_between (cur tgt d : ℚ) (hd : 0 ≤ d) :
    min cur tgt ≤ num.approach cur tgt d ∧
    num.approach cur tgt d ≤ max cur tgt := by
  unfold num.approach
  by_cases h : cur < tgt
  · rw [if_pos h]
    constructor
    · exact le_min (le_trans (min_le_left _ _) (by linarith)) (min_le_right _ _)
    · exact le_trans (min_le_right _ _) (le_max_right _ _)
  · rw [if_neg h]
    constructor
    · exact le_trans (min_le_right _ _) (le_max_right _ _)
    · exact max_le (le_trans (by linarith) (le_max_left _ _))
        (le_trans (le_of_not_lt h) (le_max_left _ _))

theorem cameraUpdate_zoom (c : CameraState) (delta r1 r2 fx fy : ℚ) :
    (cameraUpdate c delta r1 r2 fx fy).zoom =
      num.approach c.zoom c.targetZoom (|c.targetZoom - c.zoom| * 5 * delta) ∧
    (cameraUpdate c delta r1 r2 fx fy).targetZoom = c.targetZoom := by
  by_cases hf : c.following = true
  · unfold cameraUpdate
    rw [if_pos hf]
    exact ⟨rfl, rfl⟩
  · have hf2 : c.following = false := by simpa using hf
    unfold cameraUpdate
    rw [if_neg (by simp [hf2])]
    exact ⟨rfl, rfl⟩

theorem runCamZoom_inv (ops : List CamOp) :
    ∀ c : CameraState, deltasOk ops = true → 1/10 ≤ c.zoom →
    1/10 ≤ c.targetZoom →
    1/10 ≤ (ops.foldl applyCamOp c).zoom ∧
    1/10 ≤ (ops.foldl applyCamOp c).targetZoom := by
  induction ops with
  | nil =>
    intro c _ h1 h2
    exact ⟨h1, h2⟩
  | cons op rest ih =>
    intro c hok h1 h2
    rw [List.foldl_cons]
    have hok2 : deltasOk rest = true := by
      rw [deltasOk, List.all_cons, Bool.and_eq_true] at hok
      exact hok.2
    have hop : deltaOkOp op = true := by
      rw [deltasOk, List.all_cons, Bool.and_eq_true] at hok
      exact hok.1
    have hstep : 1/10 ≤ (applyCamOp c op).zoom ∧
        1/10 ≤ (applyCamOp c op).targetZoom := by
      cases op with
      | screenSize w h => exact ⟨h1, h2⟩
      | follow speed => exact ⟨h1, h2⟩
      | stopFollow => exact ⟨h1, h2⟩
      | position px py => exact ⟨h1, h2⟩
      | target px py => exact ⟨h1, h2⟩
      | zoomTo z => exact ⟨h1, le_max_left _ _⟩
      | zoomNow z => exact ⟨le_max_left _ _, le_max_left _ _⟩
      | boundsTo w h => exact ⟨h1, h2⟩
      | boundsClear => exact ⟨h1, h2⟩
      | shake i d => exact ⟨h1, h2⟩
      | update delta r1 r2 fx fy =>
        have hdelta : 0 ≤ delta := by simpa [deltaOkOp] using hop
        obtain ⟨hz, ht⟩ := cameraUpdate_zoom c delta r1 r2 fx fy
        have habs : 0 ≤ |c.targetZoom - c.zoom| * 5 * delta :=
          mul_nonneg (mul_nonneg (abs_nonneg _) (by norm_num)) hdelta
        obtain ⟨hlo, _⟩ := approach_between c.zoom c.targetZoom _ habs
        constructor
        · show 1/10 ≤ (cameraUpdate c delta r1 r2 fx fy).zoom
          rw [hz]
          exact le_trans (le_min h1 h2) hlo
        · show 1/10 ≤ (cameraUpdate c delta r1 r2 fx fy).targetZoom
          rw [ht]
          exact h2
    exact ih _ hok2 hstep.1 hstep.2

/-- Claim C10: from the initial camera state, after any sequence of public
camera operations with non-negative update deltas, the zoom is at least
0.1 (hence nonzero, so the divisions by zoom in `screenToWorld`,
`getVisibleBounds` and the bounds-clamping branch of `update` are never by
zero); `setZoom`/`setZoomImmediate` clamp to a minimum of 0.1 and `update`
moves zoom toward the clamped target without overshooting. -/
theorem claim_C10_zoom_lower_bound (ops : List CamOp)
    (h : deltasOk ops = true) :
    1/10 ≤ (runCam ops).zoom ∧ (runCam ops).zoom ≠ 0 ∧
    1/10 ≤ (runCam ops).targetZoom ∧
    (∀ c z, (setZoom c z).targetZoom = max (1/10) z ∧
      (setZoomImmediate c z).zoom = max (1/10) z) ∧
    (∀ c delta r1 r2 fx fy, 0 ≤ delta →
      min c.zoom c.targetZoom ≤ (cameraUpdate c delta r1 r2 fx fy).zoom ∧
      (cameraUpdate c delta r1 r2 fx fy).zoom ≤ max c.zoom c.targetZoom) := by
  obtain ⟨hz, ht⟩ := runCamZoom_inv ops initCamera h (by norm_num [initCamera])
    (by norm_num [initCamera])
  refine ⟨hz, ?_, ht, ?_, ?_⟩
  · intro hc
    have hc2 : (ops.foldl applyCamOp initCamera).zoom = 0 := hc
    rw [hc2] at hz
    norm_num at hz
  · intro c z
    exact ⟨rfl, rfl⟩
  · intro c delta r1 r2 fx fy hd
    obtain ⟨hzz, _⟩ := cameraUpdate_zoom c delta r1 r2 fx fy
    have habs : 0 ≤ |c.targetZoom - c.zoom| * 5 * delta :=
      mul_nonneg (mul_nonneg (abs_nonneg _) (by norm_num)) hd
    obtain ⟨hlo, hhi⟩ := approach_between c.zoom c.targetZoom _ habs
    rw [hzz]
    exact ⟨hlo, hhi⟩

/-- A concrete operation sequence trying to push zoom below the floor. -/
def c10Ops : List CamOp :=
  [CamOp.zoomTo (1/100), CamOp.update 1 0 0 0 0, CamOp.zoomNow (-(2 : ℚ))]

/-- Witness for claim C10 at a concrete operation sequence. -/
theorem claim_C10_witness :
    deltasOk c10Ops = true ∧ 1/10 ≤ (runCam c10Ops).zoom :=
  ⟨by decide, (claim_C10_zoom_lower_bound c10Ops (by decide)).1⟩

/-- A level state with `objX` pending-add and nothing pending-remove. -/
def c2wState : LevelState := { objects := [], toAdd := [objX], toRemove := [] }

/-- Witness for claim C2 at a concrete state: the object added this frame
is updated in the same frame. -/
theorem claim_C2_witness :
    Ev.updateObj "x" 1 ∈ (levelUpdateFn c2wState 1).2 :=
  (claim_C2_update_pass_order c2wState 1).2.2 objX (by decide) (by decide)
    (by decide) (by decide)
